import Mathlib

/-!
# Verification of the 4×4×4 four-in-a-row engine

Shallow embedding, in Lean 4, of the game engine of the repository:

* `src/game/rules.py` — the winning-line catalog and `check_winner`;
* `src/ai/heuristics.py` — the three heuristic evaluators;
* `src/ai/minimax.py` — `MinimaxAI` (plain minimax, transposition cache);
* `src/ai/alphabeta.py` — `AlphaBetaAI` (alpha-beta, resign logic);
* `src/ai/alphabeta_heuristic.py` — `AlphaBetaHeuristicAI`;
* `src/ai/minimax_heuristic.py` — `MinimaxHeuristicAI._minimax`.

The repository's `game/board.py` and `config.py` are not present in the
source tree (only their callers are), so the `Board` operations and the
player constants are modelled from the spec (§3, §4.1, §6): cells hold
`EMPTY = 0` and the two players in the signed encoding `1` / `-1` used
throughout the AI modules (`opponent = -player`, empty tested `== 0`).
`BOARD_SIZE = 4` per the spec.

A board is the flat list of its 64 cells (row-major over the canonical
coordinate order); this also serves as the "board fingerprint" of the
transposition-cache key — Python hashes the grid bytes, which we model
by the (injective) grid contents themselves.

Write-only instrumentation fields of the Python classes
(`nodes_evaluated` where it is never read, `pruned_branches`, `print`
calls, `last_winning_line`) do not influence any returned value and are
omitted from the embedding.  `MinimaxHeuristicAI._minimax` *does* read
its node counter, so there it is threaded explicitly.

Python floats appearing in move-ordering scores (`abs(z - 1.5)` etc.)
take only exactly-representable half-integer values; they are embedded
as the doubled integer quantity (`|2*z - 3|` …), which is an
order-preserving rescaling wherever the score is only compared
(`AlphaBetaAI._order_moves`) and an exact integer identity in
`MinimaxAI._quick_evaluate_move` (where `center_dist * 2` is an integer).
-/

namespace Cubic

/-- A board coordinate: a triple of axis indices in `[0, 4)`.
The engine passes such triples around unchanged (one variable-naming
convention per module); we fix one canonical triple type. -/
abbrev Coord := Nat × Nat × Nat

/-- Modelled from the spec: the board is a 4×4×4 grid of cells in
`{EMPTY = 0, 1, -1}`, stored flat in canonical coordinate order
(`game/board.py` is not in the source tree). -/
abbrev Board := List Int

/-- Flat index of a coordinate in the 64-cell grid. -/
def flatIdx (c : Coord) : Nat := 16 * c.1 + 4 * c.2.1 + c.2.2

/-- Modelled from the spec: `Board.get_cell` — pure read of one cell. -/
def getCell (b : Board) (c : Coord) : Int := b.getD (flatIdx c) 0

/-- Modelled from the spec: `Board.make_move` applied to a legal
(empty, in-range) target — sets the cell to `player`.  The engine only
calls it on coordinates produced by `get_available_moves`. -/
def makeMove (b : Board) (c : Coord) (player : Int) : Board :=
  b.set (flatIdx c) player

/-- All 64 coordinates in the canonical iteration order (spec §4.1:
a fixed deterministic order shared by all variants). -/
def allCoords : List Coord :=
  (List.range 4).flatMap fun a =>
    (List.range 4).flatMap fun b =>
      (List.range 4).map fun c => (a, b, c)

/-- Modelled from the spec: `Board.get_available_moves` — all EMPTY
cells in the canonical order. -/
def availableMoves (b : Board) : List Coord :=
  allCoords.filter fun c => getCell b c = 0

/-- Modelled from the spec: `Board.is_full` — no EMPTY cell remains. -/
def isFull (b : Board) : Bool := availableMoves b = []

/-- Modelled from the spec: the player constant `PLAYER_HUMAN` of the
missing `config.py`, in the signed encoding of the AI modules. -/
def PLAYER_HUMAN : Int := 1

/-- Modelled from the spec: the player constant `PLAYER_AI`. -/
def PLAYER_AI : Int := -1

/-! ## `game/rules.py` — `GameRules` -/

/-- `GameRules._generate_all_winning_lines` (src/game/rules.py:12-57):
rows, columns, pillars, XY/XZ/YZ planar diagonals, space diagonals,
in exactly the generation order of the source. -/
def winningLines : List (List Coord) :=
  -- 1. Rows (parallel to x-axis): 16 lines
  ((List.range 4).flatMap fun y =>
    (List.range 4).map fun z =>
      (List.range 4).map fun x => (x, y, z)) ++
  -- 2. Columns (parallel to y-axis): 16 lines
  ((List.range 4).flatMap fun x =>
    (List.range 4).map fun z =>
      (List.range 4).map fun y => (x, y, z)) ++
  -- 3. Pillars (parallel to z-axis): 16 lines
  ((List.range 4).flatMap fun x =>
    (List.range 4).map fun y =>
      (List.range 4).map fun z => (x, y, z)) ++
  -- 4. Diagonals in XY planes: 8 lines (main, then anti, per z)
  ((List.range 4).flatMap fun z =>
    [(List.range 4).map fun i => (i, i, z),
     (List.range 4).map fun i => (i, 3 - i, z)]) ++
  -- 5. Diagonals in XZ planes: 8 lines
  ((List.range 4).flatMap fun y =>
    [(List.range 4).map fun i => (i, y, i),
     (List.range 4).map fun i => (i, y, 3 - i)]) ++
  -- 6. Diagonals in YZ planes: 8 lines
  ((List.range 4).flatMap fun x =>
    [(List.range 4).map fun i => (x, i, i),
     (List.range 4).map fun i => (x, i, 3 - i)]) ++
  -- 7. Space diagonals: 4 lines
  [(List.range 4).map fun i => (i, i, i),
   (List.range 4).map fun i => (i, i, 3 - i),
   (List.range 4).map fun i => (i, 3 - i, i),
   (List.range 4).map fun i => (3 - i, i, i)]

/-- One iteration of the scan of `GameRules.check_winner`
(src/game/rules.py:63-72): the winner a single line determines, if any
(`PLAYER_HUMAN` tested first, as in the source). -/
def lineWinner (b : Board) (line : List Coord) : Option Int :=
  let values := line.map (getCell b)
  if values.all fun v => v = PLAYER_HUMAN then some PLAYER_HUMAN
  else if values.all fun v => v = PLAYER_AI then some PLAYER_AI
  else none

/-- The scan loop of `GameRules.check_winner` over a list of lines,
followed by the draw check (src/game/rules.py:59-78). -/
def checkWinnerAux (b : Board) : List (List Coord) → Option Int
  | [] => if isFull b then some 0 else none
  | l :: ls =>
    match lineWinner b l with
    | some w => some w
    | none => checkWinnerAux b ls

/-- `GameRules.check_winner` (src/game/rules.py:59-78): first complete
line in catalog order wins; full board with no line is a draw (`some 0`);
otherwise the game continues (`none`).  (`last_winning_line` is
display-only state and not modelled.) -/
def checkWinner (b : Board) : Option Int := checkWinnerAux b winningLines

/-! ## `src/ai/heuristics.py` — `HeuristicEvaluator` -/

/-- Count of cells of a line holding value `v`
(`sum(1 for pos in line if board.get_cell(*pos) == v)`). -/
def lineCount (b : Board) (line : List Coord) (v : Int) : Nat :=
  line.countP fun pos => getCell b pos = v

/-- `HeuristicEvaluator.evaluate_v1_basic` (src/ai/heuristics.py:10-25):
the loop over the winning lines, accumulator made explicit. -/
def evaluate_v1_basic (b : Board) (player : Int) : Int :=
  winningLines.foldl
    (fun score line =>
      let ai_count := lineCount b line player
      let opp_count := lineCount b line (-player)
      if ai_count > 0 ∧ opp_count = 0 then score + (ai_count : Int) ^ 2
      else if opp_count > 0 ∧ ai_count = 0 then score - (opp_count : Int) ^ 2
      else score)
    0

/-- The fixed list of 8 "center" coordinates of
`evaluate_v2_positional` (src/ai/heuristics.py:33-34). -/
def centerCoords : List Coord :=
  [(1,1,1), (1,1,2), (1,2,1), (1,2,2), (2,1,1), (2,1,2), (2,2,1), (2,2,2)]

/-- The fixed list of 8 "corner" coordinates of
`evaluate_v2_positional` (src/ai/heuristics.py:43-44). -/
def cornerCoords : List Coord :=
  [(0,0,0), (0,0,3), (0,3,0), (0,3,3), (3,0,0), (3,0,3), (3,3,0), (3,3,3)]

/-- `HeuristicEvaluator.evaluate_v2_positional`
(src/ai/heuristics.py:27-52): v1 plus ±10 per occupied center
coordinate and ±5 per occupied corner coordinate. -/
def evaluate_v2_positional (b : Board) (player : Int) : Int :=
  let score := evaluate_v1_basic b player
  let score := centerCoords.foldl
    (fun s pos =>
      let cell := getCell b pos
      if cell = player then s + 10
      else if cell = -player then s - 10
      else s) score
  cornerCoords.foldl
    (fun s pos =>
      let cell := getCell b pos
      if cell = player then s + 5
      else if cell = -player then s - 5
      else s) score

/-- `HeuristicEvaluator.evaluate_v3_aggressive`
(src/ai/heuristics.py:54-70): v2 plus the near-completion bonuses. -/
def evaluate_v3_aggressive (b : Board) (player : Int) : Int :=
  let score := evaluate_v2_positional b player
  winningLines.foldl
    (fun s line =>
      let ai_count := lineCount b line player
      let opp_count := lineCount b line (-player)
      let empty := lineCount b line 0
      let s := if ai_count = 3 ∧ empty = 1 then s + 100 else s
      if opp_count = 3 ∧ empty = 1 then s - 150 else s)
    score

/-- `AlphaBetaHeuristicAI._evaluate` / `MinimaxHeuristicAI._evaluate`
(heuristic-version dispatch; src/ai/alphabeta_heuristic.py:117-123). -/
def evaluate (version : Nat) (b : Board) (player : Int) : Int :=
  if version = 1 then evaluate_v1_basic b player
  else if version = 2 then evaluate_v2_positional b player
  else evaluate_v3_aggressive b player

/-! ## Shared search infrastructure -/

/-- `sys.maxsize` on a 64-bit CPython. -/
def sysMaxsize : Int := 2 ^ 63 - 1

/-- Stable insertion step of a descending sort on the first component:
the element moves left past strictly smaller scores only, so elements
of equal score keep their original relative order — the behaviour of
Python's stable `list.sort(reverse=True, key=lambda x: x[0])`. -/
def insertDesc {α : Type} (x : Int × α) : List (Int × α) → List (Int × α)
  | [] => [x]
  | y :: ys => if x.1 > y.1 then x :: y :: ys else y :: insertDesc x ys

/-- Stable descending sort by score (model of
`move_scores.sort(reverse=True, key=lambda x: x[0])`). -/
def sortDesc {α : Type} (l : List (Int × α)) : List (Int × α) :=
  l.foldl (fun acc x => insertDesc x acc) []

/-- The immediate-win scan shared by the `get_best_move` variants
(src/ai/minimax.py:35-43, src/ai/alphabeta.py:33-40,
src/ai/alphabeta_heuristic.py:39-45): the first available move that,
applied for `who`, makes `check_winner` return `who`.  Each loop
makes the move, reads the winner, undoes, and returns on success —
on the reversible board this is a `find?` over the move list. -/
def findWinningMove (b : Board) (ms : List Coord) (who : Int) : Option Coord :=
  ms.find? fun m => decide (checkWinner (makeMove b m who) = some who)

/-- The blocking-move collection loop shared by `AlphaBetaAI` and
`AlphaBetaHeuristicAI` (src/ai/alphabeta.py:43-50,
src/ai/alphabeta_heuristic.py:47-55): every available move that, applied
for the opponent, makes `check_winner` return the opponent. -/
def blockingMoves (b : Board) (p : Int) : List Coord :=
  (availableMoves b).filter fun m => decide (checkWinner (makeMove b m (-p)) = some (-p))

/-- The transposition-cache key: (board fingerprint, remaining depth,
side-to-move flag).  Python fingerprints by hashing the grid bytes; the
model uses the (injective) grid contents. -/
abbrev CacheKey := Board × Nat × Bool

/-- The transposition table, as an association list (most recent first). -/
abbrev Cache := List (CacheKey × Int)

/-- `cache_key in self.transposition_table` / read. -/
def cacheLookup (c : Cache) (k : CacheKey) : Option Int :=
  (c.find? fun e => decide (e.1 = k)).map (·.2)

/-- `if len(self.transposition_table) < self.max_cache_size:
self.transposition_table[cache_key] = result` — dict assignment
replaces an existing binding, otherwise adds one; nothing happens at
capacity. -/
def cacheStore (cap : Nat) (c : Cache) (k : CacheKey) (v : Int) : Cache :=
  if c.length < cap then
    if c.any fun e => decide (e.1 = k) then
      c.map fun e => if e.1 = k then (k, v) else e
    else (k, v) :: c
  else c

/-! ## `src/ai/minimax.py` — `MinimaxAI` -/

/-- `MinimaxAI.max_cache_size` (src/ai/minimax.py:12). -/
def MinimaxAI.maxCacheSize : Nat := 100000

/-- The 13 scan directions of `MinimaxAI._quick_evaluate_move`
(src/ai/minimax.py:100-105). -/
def directions : List (Int × Int × Int) :=
  [(1,0,0), (0,1,0), (0,0,1),
   (1,1,0), (1,0,1), (0,1,1),
   (1,-1,0), (1,0,-1), (0,1,-1),
   (1,1,1), (1,1,-1), (1,-1,1), (-1,1,1)]

/-- In-range read of `board.grid` at possibly-out-of-range signed
coordinates, mirroring the `0 <= nz < 4 and ...` guard of
`MinimaxAI._evaluate_line` (src/ai/minimax.py:122-124). -/
def cellAtInt (b : Board) (z x y : Int) : Option Int :=
  if 0 ≤ z ∧ z < 4 ∧ 0 ≤ x ∧ x < 4 ∧ 0 ≤ y ∧ y < 4 then
    some (getCell b (z.toNat, x.toNat, y.toNat))
  else none

/-- `MinimaxAI._evaluate_line` (src/ai/minimax.py:115-143). -/
def evaluateLine (b : Board) (z x y dz dx dy p : Int) : Int :=
  let offs := (List.range 7).map fun k => (k : Int) - 3
  let cells := offs.filterMap fun i => cellAtInt b (z + i * dz) (x + i * dx) (y + i * dy)
  let pc := cells.countP fun v => v = p
  let oc := cells.countP fun v => v = -p
  if pc = 4 then 1000
  else if oc = 4 then -1000
  else if pc > 0 ∧ oc = 0 then (pc : Int) * pc * 5
  else if oc > 0 ∧ pc = 0 then -((oc : Int) * oc * 4)
  else 0

/-- Twice the Manhattan distance of a coordinate to the cube center
(`(abs(a - 1.5) + abs(b - 1.5) + abs(c - 1.5)) * 2`, an exact integer). -/
def centerDist2 (m : Coord) : Int :=
  |2 * (m.1 : Int) - 3| + |2 * (m.2.1 : Int) - 3| + |2 * (m.2.2 : Int) - 3|

/-- `MinimaxAI._quick_evaluate_move` (src/ai/minimax.py:88-113); the
float expression `10 - center_dist * 2` is integer-valued and embedded
exactly. -/
def quickEvaluateMove (b : Board) (m : Coord) (p : Int) : Int :=
  let score : Int := 10 - centerDist2 m
  let bAfter := makeMove b m p
  directions.foldl
    (fun s d =>
      s + evaluateLine bAfter (m.1 : Int) (m.2.1 : Int) (m.2.2 : Int) d.1 d.2.1 d.2.2 p)
    score

/-- The maximizing loop of `MinimaxAI._minimax`
(src/ai/minimax.py:180-201): fold with the `max_score >= 10000` break,
threading the transposition cache through the child evaluations. -/
def mmMaxLoop (ev : Coord → Cache → Int × Cache) :
    List Coord → Int → Cache → Int × Cache
  | [], best, c => (best, c)
  | m :: ms, best, c =>
    let sc := ev m c
    let best2 := max best sc.1
    if best2 ≥ 10000 then (best2, sc.2) else mmMaxLoop ev ms best2 sc.2

/-- The minimizing loop of `MinimaxAI._minimax`
(src/ai/minimax.py:202-224), with the `min_score <= -10000` break. -/
def mmMinLoop (ev : Coord → Cache → Int × Cache) :
    List Coord → Int → Cache → Int × Cache
  | [], best, c => (best, c)
  | m :: ms, best, c =>
    let sc := ev m c
    let best2 := min best sc.1
    if best2 ≤ -10000 then (best2, sc.2) else mmMinLoop ev ms best2 sc.2

/-- The body of `MinimaxAI._minimax` (src/ai/minimax.py:153-230) at
remaining depth `d`, with the one-level-deeper search abstracted as
`child` (the board/side/cache-threading recursive call).  The mutable
`self.transposition_table` is threaded explicitly; `nodes_evaluated`
is write-only there and omitted. -/
def MinimaxAI.minimaxBody (pl : Int) (d : Nat) (b : Board) (isMax : Bool)
    (c : Cache) (child : Board → Bool → Cache → Int × Cache) : Int × Cache :=
  match cacheLookup c (b, d, isMax) with
  | some v => (v, c)
  | none =>
    let w := checkWinner b
    let rc : Int × Cache :=
      if w = some pl then (10000 + (d : Int), c)
      else if w = some (-pl) then (-10000 - (d : Int), c)
      else if isFull b then (0, c)
      else if d = 0 then (0, c)
      else
        if isMax then
          let moves := availableMoves b
          let moves := if d ≤ 2 ∧ moves.length > 15 then moves.take 15 else moves
          mmMaxLoop (fun m cc => child (makeMove b m pl) false cc)
            moves (-sysMaxsize) c
        else
          let moves := availableMoves b
          let moves := if d ≤ 2 ∧ moves.length > 15 then moves.take 15 else moves
          mmMinLoop (fun m cc => child (makeMove b m (-pl)) true cc)
            moves sysMaxsize c
    (rc.1, cacheStore MinimaxAI.maxCacheSize rc.2 (b, d, isMax) rc.1)

/-- `MinimaxAI._minimax`, tying the recursive knot over the remaining
depth.  At depth 0 the body never consults `child` (the `depth == 0`
branch returns first), so a dummy is passed. -/
def MinimaxAI.minimax (pl : Int) : Nat → Board → Bool → Cache → Int × Cache
  | 0, b, isMax, c => MinimaxAI.minimaxBody pl 0 b isMax c fun _ _ cc => (0, cc)
  | d1 + 1, b, isMax, c =>
    MinimaxAI.minimaxBody pl (d1 + 1) b isMax c (MinimaxAI.minimax pl d1)

theorem MinimaxAI.minimax_zero (pl : Int) (b : Board) (isMax : Bool) (c : Cache) :
    MinimaxAI.minimax pl 0 b isMax c =
      MinimaxAI.minimaxBody pl 0 b isMax c fun _ _ cc => (0, cc) := rfl

theorem MinimaxAI.minimax_succ (pl : Int) (d1 : Nat) (b : Board) (isMax : Bool)
    (c : Cache) :
    MinimaxAI.minimax pl (d1 + 1) b isMax c =
      MinimaxAI.minimaxBody pl (d1 + 1) b isMax c (MinimaxAI.minimax pl d1) := rfl

/-- The top-level scoring loop of `MinimaxAI.get_best_move`
(src/ai/minimax.py:73-84): strict-improvement update of the best move,
cache threaded across iterations. -/
def mmTopLoop (ev : Coord → Cache → Int × Cache) :
    List Coord → Int → Coord → Cache → Coord
  | [], _, bm, _ => bm
  | m :: ms, bs, bm, c =>
    let sc := ev m c
    if sc.1 > bs then mmTopLoop ev ms sc.1 m sc.2
    else mmTopLoop ev ms bs bm sc.2

/-- `MinimaxAI.get_best_move` (src/ai/minimax.py:14-86). -/
def MinimaxAI.getBestMove (b : Board) (p : Int) : Option Coord :=
  let avail := availableMoves b
  if avail = [] then none else
  let depth :=
    if avail.length > 55 then 1
    else if avail.length > 45 then 2
    else if avail.length > 25 then 3
    else 4
  match findWinningMove b avail p with
  | some m => some m
  | none =>
    -- blocking loop (lines 47-55): returns the FIRST move the opponent
    -- could win with, regardless of how many exist
    match findWinningMove b avail (-p) with
    | some m => some m
    | none =>
      let sorted := sortDesc (avail.map fun m => (quickEvaluateMove b m p, m))
      let toSearch := sorted.take 25  -- move_scores[:min(25, len(move_scores))]
      match sorted with
      | [] => none  -- unreachable: avail nonempty
      | (_, m0) :: _ =>
        some (mmTopLoop
          (fun m cc => MinimaxAI.minimax p (depth - 1) (makeMove b m p) false cc)
          (toSearch.map (·.2)) (-sysMaxsize) m0 [])

/-! ## `src/ai/alphabeta.py` — `AlphaBetaAI` -/

/-- The maximizing loop of `AlphaBetaAI._alphabeta`
(src/ai/alphabeta.py:117-130): `max_score`/`alpha` updates and the
`beta <= alpha` cutoff; the child evaluation receives the running
alpha. -/
def abMaxLoop (ev : Coord → Int → Int) : List Coord → Int → Int → Int → Int
  | [], _, _, best => best
  | m :: ms, a, beta, best =>
    let s := ev m a
    let best2 := max best s
    let a2 := max a s
    if beta ≤ a2 then best2 else abMaxLoop ev ms a2 beta best2

/-- The minimizing loop of `AlphaBetaAI._alphabeta`
(src/ai/alphabeta.py:131-145); the child receives the running beta. -/
def abMinLoop (ev : Coord → Int → Int) : List Coord → Int → Int → Int → Int
  | [], _, _, best => best
  | m :: ms, a, beta, best =>
    let s := ev m beta
    let best2 := min best s
    let beta2 := min beta s
    if beta2 ≤ a then best2 else abMinLoop ev ms a beta2 best2

/-- The body of `AlphaBetaAI._alphabeta` (src/ai/alphabeta.py:105-145)
with the one-level-deeper search abstracted as `child`.  Note that the
`elif winner is not None` branch also catches a drawn full board
(`check_winner` = 0), scoring it `-1000 - depth`; the explicit draw
return 0 on the next line is unreachable for full boards. -/
def AlphaBetaAI.alphabetaBody (pl : Int) (d : Nat) (b : Board) (a beta : Int)
    (isMax : Bool) (child : Board → Int → Int → Bool → Int) : Int :=
  let w := checkWinner b
  if w = some pl then 1000 + (d : Int)
  else if w ≠ none then -1000 - (d : Int)
  else if isFull b then 0
  else if d = 0 then 0  -- `board.is_full() or depth == 0` → 0
  else
    if isMax then
      abMaxLoop (fun m aa => child (makeMove b m pl) aa beta false)
        (availableMoves b) a beta (-sysMaxsize)
    else
      abMinLoop (fun m bb => child (makeMove b m (-pl)) a bb true)
        (availableMoves b) a beta sysMaxsize

/-- `AlphaBetaAI._alphabeta`, tying the recursive knot; at depth 0 the
body never consults `child`. -/
def AlphaBetaAI.alphabeta (pl : Int) : Nat → Board → Int → Int → Bool → Int
  | 0, b, a, beta, isMax => AlphaBetaAI.alphabetaBody pl 0 b a beta isMax fun _ _ _ _ => 0
  | d1 + 1, b, a, beta, isMax =>
    AlphaBetaAI.alphabetaBody pl (d1 + 1) b a beta isMax (AlphaBetaAI.alphabeta pl d1)

theorem AlphaBetaAI.alphabeta_zero (pl : Int) (b : Board) (a beta : Int) (isMax : Bool) :
    AlphaBetaAI.alphabeta pl 0 b a beta isMax =
      AlphaBetaAI.alphabetaBody pl 0 b a beta isMax fun _ _ _ _ => 0 := rfl

theorem AlphaBetaAI.alphabeta_succ (pl : Int) (d1 : Nat) (b : Board) (a beta : Int)
    (isMax : Bool) :
    AlphaBetaAI.alphabeta pl (d1 + 1) b a beta isMax =
      AlphaBetaAI.alphabetaBody pl (d1 + 1) b a beta isMax (AlphaBetaAI.alphabeta pl d1) := rfl

/-- `AlphaBetaAI._order_moves` (src/ai/alphabeta.py:90-103): stable
descending sort by `10 - center_dist`; the half-integer float score is
embedded doubled (`20 - centerDist2`), an order-preserving rescale.
The board and player arguments of the source are unused by its body. -/
def AlphaBetaAI.orderMoves (ms : List Coord) : List Coord :=
  (sortDesc (ms.map fun m => (20 - centerDist2 m, m))).map (·.2)

/-- The top-level loop of `AlphaBetaAI.get_best_move`
(src/ai/alphabeta.py:71-81): strict improvement updates best score,
best move and alpha; no break.  Returns (best_score, best_move). -/
def abaTopLoop (ev : Coord → Int → Int) :
    List Coord → Int → Option Coord → Int → Int × Option Coord
  | [], bs, bm, _ => (bs, bm)
  | m :: ms, bs, bm, a =>
    let s := ev m a
    if s > bs then abaTopLoop ev ms s (some m) (max a s)
    else abaTopLoop ev ms bs bm a

/-- `AlphaBetaAI.get_best_move` (src/ai/alphabeta.py:13-88), including
the resign logic: with more than one opponent winning reply, or a best
score ≤ -900, it plays `available_moves[0]`. -/
def AlphaBetaAI.getBestMove (maxDepth : Nat) (b : Board) (p : Int) : Option Coord :=
  let avail := availableMoves b
  if avail = [] then none else
  let depth :=
    if avail.length > 50 then 2
    else if avail.length > 30 then 3
    else if avail.length > 15 then 4
    else min 5 maxDepth
  match findWinningMove b avail p with
  | some m => some m
  | none =>
    let oppWinning := blockingMoves b p
    if oppWinning.length = 1 then oppWinning.head?
    else if oppWinning.length > 1 then avail.head?  -- resigned: `available_moves[0]`
    else
      let ordered := AlphaBetaAI.orderMoves avail
      let r := abaTopLoop
        (fun m aa => AlphaBetaAI.alphabeta p (depth - 1) (makeMove b m p) aa sysMaxsize false)
        ordered (-sysMaxsize) none (-sysMaxsize)
      if r.1 ≤ -900 then avail.head?  -- inevitable loss: `available_moves[0]`
      else match r.2 with
        | some m => some m
        | none => avail.head?  -- `best_move if best_move else available_moves[0]`

/-! ## `src/ai/alphabeta_heuristic.py` — `AlphaBetaHeuristicAI` -/

/-- `AlphaBetaHeuristicAI.max_cache_size` (src/ai/alphabeta_heuristic.py:15). -/
def ABH.maxCacheSize : Nat := 100000

/-- The low-depth move reduction of `AlphaBetaHeuristicAI._alphabeta`
(src/ai/alphabeta_heuristic.py:160-170 and 191-202): one-ply heuristic
scores for `who`, stable descending sort, keep the best 20. -/
def ABH.reduceMoves (ver : Nat) (b : Board) (moves : List Coord) (who : Int) :
    List Coord :=
  ((sortDesc (moves.map fun m => (evaluate ver (makeMove b m who) who, m))).map (·.2)).take 20

/-- The maximizing loop of `AlphaBetaHeuristicAI._alphabeta`
(src/ai/alphabeta_heuristic.py:172-185), cache threaded. -/
def abhMaxLoop (ev : Coord → Int → Cache → Int × Cache) :
    List Coord → Int → Int → Int → Cache → Int × Cache
  | [], _, _, best, c => (best, c)
  | m :: ms, a, beta, best, c =>
    let sc := ev m a c
    let best2 := max best sc.1
    let a2 := max a sc.1
    if beta ≤ a2 then (best2, sc.2) else abhMaxLoop ev ms a2 beta best2 sc.2

/-- The minimizing loop of `AlphaBetaHeuristicAI._alphabeta`
(src/ai/alphabeta_heuristic.py:204-217). -/
def abhMinLoop (ev : Coord → Int → Cache → Int × Cache) :
    List Coord → Int → Int → Int → Cache → Int × Cache
  | [], _, _, best, c => (best, c)
  | m :: ms, a, beta, best, c =>
    let sc := ev m beta c
    let best2 := min best sc.1
    let beta2 := min beta sc.1
    if beta2 ≤ a then (best2, sc.2) else abhMinLoop ev ms a beta2 best2 sc.2

/-- The body of `AlphaBetaHeuristicAI._alphabeta`
(src/ai/alphabeta_heuristic.py:132-223) with the one-level-deeper
search abstracted as `child`; the transposition cache is threaded
explicitly. -/
def ABH.alphabetaBody (ver : Nat) (pl : Int) (d : Nat) (b : Board) (a beta : Int)
    (isMax : Bool) (c : Cache)
    (child : Board → Int → Int → Bool → Cache → Int × Cache) : Int × Cache :=
  match cacheLookup c (b, d, isMax) with
  | some v => (v, c)
  | none =>
    let w := checkWinner b
    let rc : Int × Cache :=
      if w = some pl then (1000 + (d : Int), c)
      else if w = some (-pl) then (-1000 - (d : Int), c)
      else if isFull b then (0, c)
      else if d = 0 then (evaluate ver b pl, c)
      else
        if isMax then
          let moves := availableMoves b
          let moves :=
            if d ≤ 2 ∧ moves.length > 20 then ABH.reduceMoves ver b moves pl
            else moves
          abhMaxLoop (fun m aa cc => child (makeMove b m pl) aa beta false cc)
            moves a beta (-sysMaxsize) c
        else
          let moves := availableMoves b
          let moves :=
            if d ≤ 2 ∧ moves.length > 20 then ABH.reduceMoves ver b moves (-pl)
            else moves
          abhMinLoop (fun m bb cc => child (makeMove b m (-pl)) a bb true cc)
            moves a beta sysMaxsize c
    (rc.1, cacheStore ABH.maxCacheSize rc.2 (b, d, isMax) rc.1)

/-- `AlphaBetaHeuristicAI._alphabeta`, tying the recursive knot; at
depth 0 the body never consults `child`. -/
def ABH.alphabeta (ver : Nat) (pl : Int) :
    Nat → Board → Int → Int → Bool → Cache → Int × Cache
  | 0, b, a, beta, isMax, c =>
    ABH.alphabetaBody ver pl 0 b a beta isMax c fun _ _ _ _ cc => (0, cc)
  | d1 + 1, b, a, beta, isMax, c =>
    ABH.alphabetaBody ver pl (d1 + 1) b a beta isMax c (ABH.alphabeta ver pl d1)

theorem ABH.abh_zero (ver : Nat) (pl : Int) (b : Board) (a beta : Int)
    (isMax : Bool) (c : Cache) :
    ABH.alphabeta ver pl 0 b a beta isMax c =
      ABH.alphabetaBody ver pl 0 b a beta isMax c fun _ _ _ _ cc => (0, cc) := rfl

theorem ABH.abh_succ (ver : Nat) (pl : Int) (d1 : Nat) (b : Board)
    (a beta : Int) (isMax : Bool) (c : Cache) :
    ABH.alphabeta ver pl (d1 + 1) b a beta isMax c =
      ABH.alphabetaBody ver pl (d1 + 1) b a beta isMax c (ABH.alphabeta ver pl d1) := rfl

/-- `AlphaBetaHeuristicAI._get_ordered_moves`
(src/ai/alphabeta_heuristic.py:93-115).  The Python loop accumulates
one-ply scores but discards them when it early-returns `[move]` on an
immediate win, so it equals: first winning move if any, else the moves
stably sorted by descending one-ply heuristic score. -/
def ABH.orderedMoves (ver : Nat) (b : Board) (ms : List Coord) (p : Int) :
    List Coord :=
  match findWinningMove b ms p with
  | some m => [m]
  | none => (sortDesc (ms.map fun m => (evaluate ver (makeMove b m p) p, m))).map (·.2)

/-- The top-level loop of `AlphaBetaHeuristicAI.get_best_move`
(src/ai/alphabeta_heuristic.py:76-89): strict improvement updates, and
an early exit once `best_score >= 900`.  Returns the best move. -/
def abhTopLoop (ev : Coord → Int → Cache → Int × Cache) :
    List Coord → Int → Coord → Int → Cache → Coord
  | [], _, bm, _, _ => bm
  | m :: ms, bs, bm, a, c =>
    let sc := ev m a c
    let bs2 := if sc.1 > bs then sc.1 else bs
    let bm2 := if sc.1 > bs then m else bm
    let a2 := if sc.1 > bs then max a sc.1 else a
    if bs2 ≥ 900 then bm2 else abhTopLoop ev ms bs2 bm2 a2 sc.2

/-- `AlphaBetaHeuristicAI.get_best_move`
(src/ai/alphabeta_heuristic.py:17-91): immediate win, forced block
(unique threat) or restriction to the blocking set (multiple threats),
heuristic ordering capped at 25 candidates, then alpha-beta search
from a cleared transposition cache. -/
def ABH.getBestMove (ver maxDepth : Nat) (b : Board) (p : Int) : Option Coord :=
  let avail := availableMoves b
  if avail = [] then none else
  let depth :=
    if avail.length > 50 then 2
    else if avail.length > 35 then 3
    else if avail.length > 20 then 4
    else min 5 maxDepth
  match findWinningMove b avail p with
  | some m => some m
  | none =>
    let blocking := blockingMoves b p
    if blocking.length = 1 then blocking.head?
    else
      let candidates := if blocking.length > 1 then blocking else avail
      let moves := ABH.orderedMoves ver b candidates p
      let moves := if moves.length > 25 then moves.take 25 else moves
      match moves with
      | [] => none  -- unreachable (`moves[0]` would raise in Python)
      | m0 :: _ =>
        some (abhTopLoop
          (fun m aa cc => ABH.alphabeta ver p (depth - 1) (makeMove b m p) aa sysMaxsize false cc)
          moves (-sysMaxsize) m0 (-sysMaxsize) [])

/-! ## `src/ai/minimax_heuristic.py` — `MinimaxHeuristicAI._minimax` -/

/-- `MinimaxHeuristicAI.max_nodes` (src/ai/minimax_heuristic.py:15). -/
def MMH.maxNodes : Nat := 30000

/-- The maximizing loop of `MinimaxHeuristicAI._minimax`
(src/ai/minimax_heuristic.py:107-120), threading the node counter,
with the `max_score >= 1000` break. -/
def mmhMaxLoop (ev : Coord → Nat → Int × Nat) : List Coord → Int → Nat → Int × Nat
  | [], best, n => (best, n)
  | m :: ms, best, n =>
    let sn := ev m n
    let best2 := max best sn.1
    if best2 ≥ 1000 then (best2, sn.2) else mmhMaxLoop ev ms best2 sn.2

/-- The minimizing loop of `MinimaxHeuristicAI._minimax`
(src/ai/minimax_heuristic.py:121-134), with the `min_score <= -1000`
break. -/
def mmhMinLoop (ev : Coord → Nat → Int × Nat) : List Coord → Int → Nat → Int × Nat
  | [], best, n => (best, n)
  | m :: ms, best, n =>
    let sn := ev m n
    let best2 := min best sn.1
    if best2 ≤ -1000 then (best2, sn.2) else mmhMinLoop ev ms best2 sn.2

/-- The body of `MinimaxHeuristicAI._minimax`
(src/ai/minimax_heuristic.py:91-134) with the one-level-deeper search
abstracted as `child`.  `self.nodes_evaluated` is read by the
node-budget guard, so it is threaded as an explicit counter
(incremented on entry, as in the source).  Note the
`elif winner is not None` branch catches a drawn full board and scores
it `-1000 - depth`. -/
def MMH.minimaxBody (ver : Nat) (pl : Int) (d : Nat) (b : Board) (isMax : Bool)
    (n0 : Nat) (child : Board → Bool → Nat → Int × Nat) : Int × Nat :=
  let n := n0 + 1
  if n > MMH.maxNodes then (evaluate ver b pl, n)
  else
    let w := checkWinner b
    if w = some pl then (1000 + (d : Int), n)
    else if w ≠ none then (-1000 - (d : Int), n)
    else if isFull b then (evaluate ver b pl, n)
    else if d = 0 then (evaluate ver b pl, n)  -- `board.is_full() or depth == 0`
    else
      if isMax then
        mmhMaxLoop (fun m nn => child (makeMove b m pl) false nn)
          (availableMoves b) (-sysMaxsize) n
      else
        mmhMinLoop (fun m nn => child (makeMove b m (-pl)) true nn)
          (availableMoves b) sysMaxsize n

/-- `MinimaxHeuristicAI._minimax`, tying the recursive knot; at depth 0
the body never consults `child`. -/
def MMH.minimax (ver : Nat) (pl : Int) : Nat → Board → Bool → Nat → Int × Nat
  | 0, b, isMax, n0 => MMH.minimaxBody ver pl 0 b isMax n0 fun _ _ nn => (0, nn)
  | d1 + 1, b, isMax, n0 =>
    MMH.minimaxBody ver pl (d1 + 1) b isMax n0 (MMH.minimax ver pl d1)

/-! ## Claim-side reference definitions

These restate the spec's wording (for the functional-correctness claims
about the evaluators) and the "no pruning applied" reference recursion
(for the refinement claim C3), to be compared with the source-derived
definitions above. -/

/-- The spec's per-line contribution for the v1 evaluator (§4.3):
`≥1 mover mark and 0 opponent marks → +(mover-count)²; ≥1 opponent mark
and 0 mover marks → -(opponent-count)²; mixed or empty → 0`. -/
def v1LineContrib (b : Board) (player : Int) (line : List Coord) : Int :=
  let mc := lineCount b line player
  let oc := lineCount b line (-player)
  if mc > 0 ∧ oc = 0 then (mc : Int) ^ 2
  else if oc > 0 ∧ mc = 0 then -((oc : Int) ^ 2)
  else 0

/-- The spec's v1 evaluator as a sum over the 76 lines. -/
def v1Spec (b : Board) (player : Int) : Int :=
  (winningLines.map (v1LineContrib b player)).sum

/-- The spec's positional bonus of one coordinate (±`w` per
mover/opponent mark occupying it). -/
def posBonus (b : Board) (player w : Int) (pos : Coord) : Int :=
  if getCell b pos = player then w
  else if getCell b pos = -player then -w
  else 0

/-- The spec's v2 positional bonus: ±10 per occupied center coordinate,
±5 per occupied corner coordinate. -/
def v2Bonus (b : Board) (player : Int) : Int :=
  (centerCoords.map (posBonus b player 10)).sum +
  (cornerCoords.map (posBonus b player 5)).sum

/-- The spec's v3 near-completion bonus of one line: +100 for exactly
3 mover marks and 1 empty cell, -150 for exactly 3 opponent marks and
1 empty cell. -/
def v3LineBonus (b : Board) (player : Int) (line : List Coord) : Int :=
  (if lineCount b line player = 3 ∧ lineCount b line 0 = 1 then 100 else 0) +
  (if lineCount b line (-player) = 3 ∧ lineCount b line 0 = 1 then -150 else 0)

/-- The spec's v3 bonus summed over the catalog. -/
def v3Bonus (b : Board) (player : Int) : Int :=
  (winningLines.map (v3LineBonus b player)).sum

/-- The pruning-free reference for claim C3: `AlphaBetaAI._alphabeta`
with the alpha-beta machinery removed — same terminal values, same move
generation, plain max/min folds over the children ("pruning changes
node count, not the returned score"). -/
def minimaxNPBody (pl : Int) (d : Nat) (b : Board) (isMax : Bool)
    (child : Board → Bool → Int) : Int :=
  let w := checkWinner b
  if w = some pl then 1000 + (d : Int)
  else if w ≠ none then -1000 - (d : Int)
  else if isFull b then 0
  else if d = 0 then 0
  else
    if isMax then
      (availableMoves b).foldl
        (fun acc m => max acc (child (makeMove b m pl) false)) (-sysMaxsize)
    else
      (availableMoves b).foldl
        (fun acc m => min acc (child (makeMove b m (-pl)) true)) sysMaxsize

/-- The pruning-free reference, tying the recursive knot; at depth 0
the body never consults `child`. -/
def minimaxNP (pl : Int) : Nat → Board → Bool → Int
  | 0, b, isMax => minimaxNPBody pl 0 b isMax fun _ _ => 0
  | d1 + 1, b, isMax => minimaxNPBody pl (d1 + 1) b isMax (minimaxNP pl d1)

theorem minimaxNP_zero (pl : Int) (b : Board) (isMax : Bool) :
    minimaxNP pl 0 b isMax = minimaxNPBody pl 0 b isMax fun _ _ => 0 := rfl

theorem minimaxNP_succ (pl : Int) (d1 : Nat) (b : Board) (isMax : Bool) :
    minimaxNP pl (d1 + 1) b isMax =
      minimaxNPBody pl (d1 + 1) b isMax (minimaxNP pl d1) := rfl

/-! ## Concrete boards used by witnesses and counterexamples -/

/-- The empty board. -/
def emptyBoard : Board := List.replicate 64 0

/-- Apply a list of (coordinate, player) marks to the empty board. -/
def placeAll (ps : List (Coord × Int)) : Board :=
  ps.foldl (fun b cm => makeMove b cm.1 cm.2) emptyBoard

/-- Mover 1 is three-in-a-row on the first catalog line; (3,0,0)
completes it. -/
def nearWinBoard : Board := placeAll [((0,0,0), 1), ((1,0,0), 1), ((2,0,0), 1)]

/-- Mover 1 has completed the first catalog line. -/
def wonBoard : Board := placeAll [((0,0,0), 1), ((1,0,0), 1), ((2,0,0), 1), ((3,0,0), 1)]

/-- A late-game position: only (0,0,0) and (3,1,1) are empty, no line
is complete, mover 1 has no completing move, and the opponent -1 owns
three of row (·,1,1) — the single blocking move is (3,1,1). -/
def oneThreatBoard : Board :=
  [0, -1, 1, -1, 1, -1, 1, 1, -1, 1, 1, 1, 1, -1, -1, -1,
   1, 1, -1, 1, 1, -1, 1, 1, -1, 1, 1, 1, -1, -1, 1, -1,
   1, 1, -1, 1, -1, -1, -1, 1, 1, -1, 1, -1, -1, -1, -1, 1,
   -1, -1, 1, 1, 1, 0, 1, -1, 1, -1, -1, -1, -1, 1, -1, 1]

/-- A late-game position: only (0,0,0), (3,1,1) and (3,2,2) are empty,
no line is complete, mover 1 has no completing move, and opponent -1
threatens both row (·,1,1) and row (·,2,2): the blocking set is
exactly {(3,1,1), (3,2,2)}, and the first available move (0,0,0)
blocks neither. -/
def twoThreatsBoard : Board :=
  [0, 1, 1, -1, -1, -1, 1, 1, 1, -1, -1, 1, 1, -1, 1, 1,
   1, 1, 1, -1, 1, -1, -1, -1, 1, 1, -1, -1, -1, -1, 1, 1,
   1, -1, -1, 1, 1, -1, -1, 1, -1, 1, -1, -1, 1, 1, 1, -1,
   -1, 1, 1, 1, -1, 0, -1, 1, 1, 1, 0, -1, -1, -1, -1, 1]

/-- A completely full board with no 4-in-line: a draw. -/
def drawnBoard : Board :=
  [-1, 1, 1, 1, -1, 1, 1, -1, 1, -1, -1, 1, 1, -1, -1, 1,
   1, -1, -1, 1, 1, 1, -1, 1, -1, 1, 1, -1, -1, 1, 1, -1,
   -1, 1, 1, -1, -1, 1, -1, -1, 1, -1, -1, 1, 1, -1, -1, 1,
   -1, -1, -1, 1, 1, -1, -1, 1, -1, 1, 1, -1, -1, 1, 1, -1]

/-! ## Helper lemmas: accumulator folds of the evaluators -/

theorem foldl_shift {α : Type} (g : Int → α → Int) (f : α → Int)
    (h : ∀ s x, g s x = s + f x) :
    ∀ (l : List α) (s : Int), l.foldl g s = s + (l.map f).sum := by
  intro l
  induction l with
  | nil => simp
  | cons x xs ih =>
    intro s
    rw [List.foldl_cons, ih, h, List.map_cons, List.sum_cons, add_assoc]

theorem sum_map_neg {α : Type} (f : α → Int) :
    ∀ l : List α, (l.map fun x => -f x).sum = -((l.map f).sum) := by
  intro l
  induction l with
  | nil => simp
  | cons x xs ih => simp [ih]; ring

/-- The v1 loop body adds exactly the spec's per-line contribution. -/
theorem v1_body_shift (b : Board) (p : Int) (s : Int) (line : List Coord) :
    (let ai_count := lineCount b line p
     let opp_count := lineCount b line (-p)
     if ai_count > 0 ∧ opp_count = 0 then s + (ai_count : Int) ^ 2
     else if opp_count > 0 ∧ ai_count = 0 then s - (opp_count : Int) ^ 2
     else s) = s + v1LineContrib b p line := by
  simp only [v1LineContrib]
  split_ifs <;> ring1

/-- `evaluate_v1_basic` equals the spec's sum over the 76 lines. -/
theorem v1_eq (b : Board) (p : Int) : evaluate_v1_basic b p = v1Spec b p := by
  unfold evaluate_v1_basic v1Spec
  rw [foldl_shift _ (v1LineContrib b p) (v1_body_shift b p), zero_add]

/-- `evaluate_v2_positional` is v1 plus the positional bonuses. -/
theorem v2_eq (b : Board) (p : Int) :
    evaluate_v2_positional b p = evaluate_v1_basic b p + v2Bonus b p := by
  unfold evaluate_v2_positional v2Bonus
  rw [foldl_shift _ (posBonus b p 5) ?h5, foldl_shift _ (posBonus b p 10) ?h10]
  case h5 =>
    intro s pos
    simp only [posBonus]
    split_ifs <;> ring
  case h10 =>
    intro s pos
    simp only [posBonus]
    split_ifs <;> ring
  ring

/-- `evaluate_v3_aggressive` is v2 plus the near-completion bonuses. -/
theorem v3_eq (b : Board) (p : Int) :
    evaluate_v3_aggressive b p = evaluate_v2_positional b p + v3Bonus b p := by
  unfold evaluate_v3_aggressive v3Bonus
  rw [foldl_shift _ (v3LineBonus b p) ?hb]
  case hb =>
    intro s line
    simp only [v3LineBonus]
    split_ifs <;> ring

/-- The per-line v1 contribution negates under player swap. -/
theorem v1LineContrib_neg (b : Board) (p : Int) (line : List Coord) :
    v1LineContrib b (-p) line = -(v1LineContrib b p line) := by
  simp only [v1LineContrib, neg_neg]
  split_ifs <;> first | ring1 | (exfalso; omega)

/-- `v1Spec` is antisymmetric in the player, for any integer player. -/
theorem v1Spec_neg (b : Board) (p : Int) : v1Spec b (-p) = -(v1Spec b p) := by
  unfold v1Spec
  rw [show (winningLines.map (v1LineContrib b (-p))) =
        winningLines.map fun l => -(v1LineContrib b p l) from
      List.map_congr_left fun l _ => v1LineContrib_neg b p l,
    sum_map_neg]

/-- The positional bonus of one coordinate negates under player swap,
for a nonzero player. -/
theorem posBonus_neg (b : Board) (p w : Int) (hp : p ≠ 0) (pos : Coord) :
    posBonus b (-p) w pos = -(posBonus b p w pos) := by
  simp only [posBonus, neg_neg]
  split_ifs <;> first | ring1 | (exfalso; omega)

/-- The v2 positional bonus negates under player swap (nonzero player). -/
theorem v2Bonus_neg (b : Board) (p : Int) (hp : p ≠ 0) :
    v2Bonus b (-p) = -(v2Bonus b p) := by
  unfold v2Bonus
  rw [show (centerCoords.map (posBonus b (-p) 10)) =
        centerCoords.map fun pos => -(posBonus b p 10 pos) from
      List.map_congr_left fun pos _ => posBonus_neg b p 10 hp pos,
    show (cornerCoords.map (posBonus b (-p) 5)) =
        cornerCoords.map fun pos => -(posBonus b p 5 pos) from
      List.map_congr_left fun pos _ => posBonus_neg b p 5 hp pos,
    sum_map_neg, sum_map_neg]
  ring

/-! ## Claims C5, C8, C9, C10 -/

/-- C5: the winning-line catalog for the size-4 cube contains exactly
76 lines, every line has exactly 4 (distinct) coordinates, and no two
lines are equal as unordered sets of coordinates. -/
theorem C5_winning_line_catalog :
    winningLines.length = 76 ∧
    (∀ l ∈ winningLines, l.length = 4 ∧ l.Nodup) ∧
    winningLines.Pairwise (fun l1 l2 => l1.toFinset ≠ l2.toFinset) :=
  ⟨by decide, by decide, by decide⟩

/-- C8: the v1 (basic) evaluator returns the sum over all 76 lines of
+(mover-count)² for a line with ≥1 mover mark and 0 opponent marks,
-(opponent-count)² for a line with ≥1 opponent mark and 0 mover marks,
and 0 for every mixed or empty line. -/
theorem C8_v1_line_sum (b : Board) (p : Int) :
    evaluate_v1_basic b p = v1Spec b p :=
  v1_eq b p

/-- C9: the v2 (positional) evaluator equals v1 plus ±10 per occupied
center coordinate and ±5 per occupied corner coordinate, and the v3
(aggressive) evaluator equals v2 plus +100 per line with exactly 3
mover marks and 1 empty cell and -150 per line with exactly 3 opponent
marks and 1 empty cell. -/
theorem C9_v2_v3_decomposition (b : Board) (p : Int) :
    evaluate_v2_positional b p = evaluate_v1_basic b p + v2Bonus b p ∧
    evaluate_v3_aggressive b p = evaluate_v2_positional b p + v3Bonus b p :=
  ⟨v2_eq b p, v3_eq b p⟩

set_option maxRecDepth 8000 in
/-- C10: for every board and signed player, v1 and v2 negate under
player swap; v3 does not (witnessed by a board with an open
three-in-a-row, where the asymmetric +100 vs -150 bonus breaks it). -/
theorem C10_antisymmetry (b : Board) (p : Int) (hp : p = 1 ∨ p = -1) :
    evaluate_v1_basic b (-p) = -(evaluate_v1_basic b p) ∧
    evaluate_v2_positional b (-p) = -(evaluate_v2_positional b p) ∧
    evaluate_v3_aggressive nearWinBoard (-1) ≠
      -(evaluate_v3_aggressive nearWinBoard 1) := by
  have hpne : p ≠ 0 := by rcases hp with h | h <;> simp [h]
  refine ⟨?_, ?_, by decide⟩
  · rw [v1_eq, v1_eq, v1Spec_neg]
  · rw [v2_eq, v2_eq, v1_eq, v1_eq, v1Spec_neg, v2Bonus_neg b p hpne]
    ring

/-- Witness for C10 at a concrete board and player. -/
theorem C10_antisymmetry_witness :
    evaluate_v1_basic nearWinBoard (-1) = -(evaluate_v1_basic nearWinBoard 1) ∧
    evaluate_v2_positional nearWinBoard (-1) = -(evaluate_v2_positional nearWinBoard 1) :=
  ⟨(C10_antisymmetry nearWinBoard 1 (Or.inl rfl)).1,
   (C10_antisymmetry nearWinBoard 1 (Or.inl rfl)).2.1⟩

/-! ## Claim C6: `check_winner` -/

/-- If a board has an empty cell it is not full. -/
theorem not_full_of_empty_cell (b : Board) (c : Coord)
    (hc : c ∈ allCoords) (h0 : getCell b c = 0) : isFull b = false := by
  have hmem : c ∈ availableMoves b := by
    simp only [availableMoves, List.mem_filter, decide_eq_true_eq]
    exact ⟨hc, h0⟩
  simp only [isFull, decide_eq_false_iff_not]
  exact fun he => by simp [he] at hmem

/-- With no complete line among `ls`, the scan falls through to the
draw check. -/
theorem checkWinnerAux_all_none (b : Board) :
    ∀ ls : List (List Coord), (∀ l ∈ ls, lineWinner b l = none) →
      checkWinnerAux b ls = if isFull b then some 0 else none := by
  intro ls
  induction ls with
  | nil => intro _; rfl
  | cons l ls ih =>
    intro h
    rw [checkWinnerAux, h l (by simp)]
    exact ih fun l hl => h l (List.mem_cons_of_mem _ hl)

/-- The scan returns the winner of the first complete line. -/
theorem checkWinnerAux_first (b : Board) :
    ∀ (ls : List (List Coord)) (w : Int),
      ls.findSome? (lineWinner b) = some w → checkWinnerAux b ls = some w := by
  intro ls
  induction ls with
  | nil => intro w h; simp [List.findSome?] at h
  | cons l ls ih =>
    intro w h
    rw [List.findSome?_cons] at h
    rw [checkWinnerAux]
    cases hl : lineWinner b l with
    | some v => rw [hl] at h; exact h
    | none => rw [hl] at h; exact ih w h

/-- A line declared won by `lineWinner` is fully occupied by the
returned player. -/
theorem lineWinner_occupies (b : Board) (l : List Coord) (w : Int)
    (h : lineWinner b l = some w) : ∀ c ∈ l, getCell b c = w := by
  intro c hc
  simp only [lineWinner] at h
  split_ifs at h with h1 h2
  · cases h
    exact of_decide_eq_true (List.all_eq_true.mp h1 _ (List.mem_map_of_mem _ hc))
  · cases h
    exact of_decide_eq_true (List.all_eq_true.mp h2 _ (List.mem_map_of_mem _ hc))

/-- C6: `check_winner` returns the player fully occupying the first
complete line in catalog order; with at least one empty cell and no
complete line it returns None; on a full board with no complete line
it returns 0 (draw). -/
theorem C6_check_winner (b : Board) :
    ((∃ c ∈ allCoords, getCell b c = 0) →
      (∀ l ∈ winningLines, lineWinner b l = none) → checkWinner b = none) ∧
    (isFull b = true →
      (∀ l ∈ winningLines, lineWinner b l = none) → checkWinner b = some 0) ∧
    (∀ w, winningLines.findSome? (lineWinner b) = some w →
      checkWinner b = some w ∧
      ∃ l ∈ winningLines, lineWinner b l = some w ∧ ∀ c ∈ l, getCell b c = w) := by
  refine ⟨?_, ?_, ?_⟩
  · rintro ⟨c, hc, h0⟩ hnone
    rw [checkWinner, checkWinnerAux_all_none b winningLines hnone,
      not_full_of_empty_cell b c hc h0]
    rfl
  · intro hfull hnone
    rw [checkWinner, checkWinnerAux_all_none b winningLines hnone, hfull]
    rfl
  · intro w hw
    obtain ⟨l, hl, hlw⟩ := List.exists_of_findSome?_eq_some hw
    exact ⟨checkWinnerAux_first b winningLines w hw,
      l, hl, hlw, lineWinner_occupies b l w hlw⟩

/-- Witness for C6: the empty board is None, the drawn full board is 0,
a board with a completed first row names its owner. -/
theorem C6_check_winner_witness :
    checkWinner emptyBoard = none ∧
    checkWinner drawnBoard = some 0 ∧
    checkWinner wonBoard = some 1 :=
  ⟨(C6_check_winner emptyBoard).1 ⟨(0,0,0), by decide, by decide⟩ (by decide),
   (C6_check_winner drawnBoard).2.1 (by decide) (by decide),
   ((C6_check_winner wonBoard).2.2 1 (by decide)).1⟩

/-! ## Claim C1: immediate-win short-circuit -/

/-- What a successful `findWinningMove` scan guarantees. -/
theorem findWinningMove_sound (b : Board) (ms : List Coord) (who : Int)
    (m : Coord) (h : findWinningMove b ms who = some m) :
    m ∈ ms ∧ checkWinner (makeMove b m who) = some who := by
  rw [findWinningMove] at h
  have h2 := List.find?_some h
  simp only [decide_eq_true_eq] at h2
  exact ⟨List.mem_of_find?_eq_some h, h2⟩

/-- The scan succeeds whenever some available move completes a line. -/
theorem findWinningMove_isSome (b : Board) (ms : List Coord) (who : Int)
    (m0 : Coord) (hmem : m0 ∈ ms)
    (hwin : checkWinner (makeMove b m0 who) = some who) :
    ∃ m, findWinningMove b ms who = some m := by
  have : (findWinningMove b ms who).isSome := by
    rw [findWinningMove, List.find?_isSome]
    exact ⟨m0, hmem, by simp [hwin]⟩
  exact Option.isSome_iff_exists.mp this

/-- C1: when the mover has an available move completing a line, both
`MinimaxAI.get_best_move` and `AlphaBetaHeuristicAI.get_best_move`
return exactly the move found by the immediate-win scan — the
recursive search is bypassed. -/
theorem C1_immediate_win (b : Board) (p : Int) (ver maxDepth : Nat) (m0 : Coord)
    (hmem : m0 ∈ availableMoves b)
    (hwin : checkWinner (makeMove b m0 p) = some p) :
    ∃ m, findWinningMove b (availableMoves b) p = some m ∧
      m ∈ availableMoves b ∧ checkWinner (makeMove b m p) = some p ∧
      MinimaxAI.getBestMove b p = some m ∧
      ABH.getBestMove ver maxDepth b p = some m := by
  obtain ⟨m, hm⟩ := findWinningMove_isSome b (availableMoves b) p m0 hmem hwin
  obtain ⟨hmm, hmw⟩ := findWinningMove_sound b (availableMoves b) p m hm
  have hne : availableMoves b ≠ [] := List.ne_nil_of_mem hmem
  refine ⟨m, hm, hmm, hmw, ?_, ?_⟩
  · rw [MinimaxAI.getBestMove]
    simp only [if_neg hne, hm]
  · rw [ABH.getBestMove]
    simp only [if_neg hne, hm]

/-- Witness for C1 at a concrete near-win position. -/
theorem C1_immediate_win_witness :
    ∃ m, findWinningMove nearWinBoard (availableMoves nearWinBoard) 1 = some m ∧
      m ∈ availableMoves nearWinBoard ∧
      checkWinner (makeMove nearWinBoard m 1) = some 1 ∧
      MinimaxAI.getBestMove nearWinBoard 1 = some m ∧
      ABH.getBestMove 2 3 nearWinBoard 1 = some m :=
  C1_immediate_win nearWinBoard 1 2 3 (3,0,0) (by decide) (by decide)

/-! ## Claim C2: forced block / blocking-set restriction -/

/-- A `find?` is the head of the corresponding `filter`. -/
theorem find?_eq_head?_filter {α : Type} (q : α → Bool) :
    ∀ l : List α, l.find? q = (l.filter q).head? := by
  intro l
  induction l with
  | nil => rfl
  | cons x xs ih =>
    rw [List.find?_cons, List.filter_cons]
    cases h : q x
    · simp only [cond_false, Bool.false_eq_true, if_false]
      exact ih
    · simp

theorem mem_insertDesc {α : Type} (x y : Int × α) :
    ∀ l, x ∈ insertDesc y l ↔ x = y ∨ x ∈ l := by
  intro l
  induction l with
  | nil => simp [insertDesc]
  | cons z zs ih =>
    rw [insertDesc]
    split_ifs with h
    · simp [List.mem_cons]
    · simp only [List.mem_cons, ih]
      tauto

theorem mem_sortDesc_aux {α : Type} (x : Int × α) :
    ∀ (l acc : List (Int × α)),
      x ∈ l.foldl (fun a z => insertDesc z a) acc ↔ x ∈ acc ∨ x ∈ l := by
  intro l
  induction l with
  | nil => simp
  | cons z zs ih =>
    intro acc
    rw [List.foldl_cons, ih, mem_insertDesc]
    simp only [List.mem_cons]
    tauto

/-- `sortDesc` keeps exactly the elements of its input. -/
theorem mem_sortDesc {α : Type} (x : Int × α) (l : List (Int × α)) :
    x ∈ sortDesc l ↔ x ∈ l := by
  rw [sortDesc, mem_sortDesc_aux]
  simp

theorem length_insertDesc {α : Type} (y : Int × α) :
    ∀ l, (insertDesc y l).length = l.length + 1 := by
  intro l
  induction l with
  | nil => rfl
  | cons z zs ih =>
    rw [insertDesc]
    split_ifs with h
    · rfl
    · simp [ih]

/-- `sortDesc` preserves length. -/
theorem length_sortDesc {α : Type} :
    ∀ (l acc : List (Int × α)),
      (l.foldl (fun a z => insertDesc z a) acc).length = acc.length + l.length := by
  intro l
  induction l with
  | nil => simp
  | cons z zs ih =>
    intro acc
    rw [List.foldl_cons, ih, length_insertDesc]
    simp [List.length_cons]
    omega

/-- The ABH top-level loop returns the initial best move or one of the
scanned moves. -/
theorem abhTopLoop_mem (ev : Coord → Int → Cache → Int × Cache) :
    ∀ (ms : List Coord) (bs : Int) (bm : Coord) (a : Int) (c : Cache),
      abhTopLoop ev ms bs bm a c ∈ bm :: ms := by
  intro ms
  induction ms with
  | nil => intro bs bm a c; rw [abhTopLoop]; exact List.mem_cons_self _ _
  | cons m ms ih =>
    intro bs bm a c
    rw [abhTopLoop]
    by_cases hgt : (ev m a c).1 > bs
    · simp only [if_pos hgt]
      split_ifs with hbreak
      · exact List.mem_cons_of_mem bm (List.mem_cons_self m ms)
      · exact List.mem_cons_of_mem bm
          (ih (ev m a c).1 m (max a (ev m a c).1) (ev m a c).2)
    · simp only [if_neg hgt]
      split_ifs with hbreak
      · exact List.mem_cons_self bm _
      · rcases List.mem_cons.mp (ih bs bm a (ev m a c).2) with h1 | h1
        · rw [h1]; exact List.mem_cons_self bm _
        · exact List.mem_cons_of_mem bm (List.mem_cons_of_mem m h1)

/-- If the initial best move is in the scanned list, the loop result is
in the list. -/
theorem abhTopLoop_mem_of_mem (ev : Coord → Int → Cache → Int × Cache)
    (ms : List Coord) (bs : Int) (bm : Coord) (a : Int) (c : Cache)
    (h : bm ∈ ms) : abhTopLoop ev ms bs bm a c ∈ ms := by
  rcases List.mem_cons.mp (abhTopLoop_mem ev ms bs bm a c) with h1 | h1
  · rw [h1]; exact h
  · exact h1

/-- Every move produced by `_get_ordered_moves` comes from its input. -/
theorem orderedMoves_subset (ver : Nat) (b : Board) (p : Int)
    (ms : List Coord) (m : Coord) (h : m ∈ ABH.orderedMoves ver b ms p) :
    m ∈ ms := by
  rw [ABH.orderedMoves] at h
  cases hf : findWinningMove b ms p with
  | some m0 =>
    rw [hf] at h
    rw [findWinningMove] at hf
    rcases List.mem_singleton.mp h with rfl
    exact List.mem_of_find?_eq_some hf
  | none =>
    rw [hf] at h
    obtain ⟨pair, hps, hsnd⟩ := List.mem_map.mp h
    obtain ⟨m2, hm2, hfm⟩ := List.mem_map.mp ((mem_sortDesc pair _).mp hps)
    rw [← hfm] at hsnd
    rw [← hsnd]
    exact hm2

/-- `_get_ordered_moves` of a nonempty list is nonempty. -/
theorem orderedMoves_ne_nil (ver : Nat) (b : Board) (p : Int)
    (ms : List Coord) (h : ms ≠ []) : ABH.orderedMoves ver b ms p ≠ [] := by
  rw [ABH.orderedMoves]
  cases hf : findWinningMove b ms p with
  | some m0 => simp
  | none =>
    intro hcon
    have hlen := congrArg List.length hcon
    rw [List.length_map, sortDesc, length_sortDesc, List.length_map] at hlen
    simp at hlen
    exact h hlen

set_option maxRecDepth 20000 in
set_option maxHeartbeats 4000000 in
/-- C2, counterexample to the claim as stated: on `twoThreatsBoard` the
opponent has two winning replies, yet `AlphaBetaAI.get_best_move` plays
the first available move (0,0,0), which is not a blocking move — it
resigns rather than restricting to the blocking set. -/
theorem C2_counterexample :
    2 ≤ (blockingMoves twoThreatsBoard 1).length ∧
    AlphaBetaAI.getBestMove 3 twoThreatsBoard 1 = some (0, 0, 0) ∧
    (0, 0, 0) ∉ blockingMoves twoThreatsBoard 1 :=
  ⟨by decide, by decide, by decide⟩

/-- C2 as amended: provided the mover has no immediate winning move,
`AlphaBetaHeuristicAI.get_best_move` returns the unique blocking move
when exactly one exists (as does `MinimaxAI.get_best_move`, which
returns the first blocking move whenever one exists), and with two or
more blocking moves `AlphaBetaHeuristicAI` restricts its candidate set
to the blocking set; `AlphaBetaAI` instead resigns and plays the first
available move (see the counterexample). -/
theorem C2_blocking_amended (ver maxDepth : Nat) (b : Board) (p : Int)
    (hnw : findWinningMove b (availableMoves b) p = none) :
    (∀ m, blockingMoves b p = [m] →
      ABH.getBestMove ver maxDepth b p = some m ∧
      MinimaxAI.getBestMove b p = some m) ∧
    (2 ≤ (blockingMoves b p).length →
      ∃ m, ABH.getBestMove ver maxDepth b p = some m ∧ m ∈ blockingMoves b p) ∧
    (∀ m ms, blockingMoves b p = m :: ms → MinimaxAI.getBestMove b p = some m) := by
  have hsub : ∀ x, x ∈ blockingMoves b p → x ∈ availableMoves b :=
    fun x hx => List.mem_of_mem_filter hx
  have hfindblock : findWinningMove b (availableMoves b) (-p) = (blockingMoves b p).head? := by
    rw [findWinningMove, blockingMoves, find?_eq_head?_filter]
  have hminimax : ∀ m ms, blockingMoves b p = m :: ms → MinimaxAI.getBestMove b p = some m := by
    intro m ms hbl
    have hne : availableMoves b ≠ [] :=
      List.ne_nil_of_mem (hsub m (hbl ▸ List.mem_cons_self m ms))
    rw [MinimaxAI.getBestMove]
    simp only [if_neg hne, hnw, hfindblock, hbl, List.head?_cons]
  refine ⟨?_, ?_, hminimax⟩
  · intro m hbl
    refine ⟨?_, hminimax m [] hbl⟩
    have hne : availableMoves b ≠ [] :=
      List.ne_nil_of_mem (hsub m (hbl ▸ List.mem_cons_self m []))
    rw [ABH.getBestMove]
    simp only [if_neg hne, hnw, hbl, List.length_singleton, List.head?_cons]
    rw [if_pos trivial]
  · intro hlen
    have hblne : blockingMoves b p ≠ [] := by
      intro hcon
      rw [hcon] at hlen
      simp at hlen
    have hne : availableMoves b ≠ [] := by
      cases hbl : blockingMoves b p with
      | nil => exact absurd hbl hblne
      | cons m ms =>
        exact List.ne_nil_of_mem (hsub m (hbl ▸ List.mem_cons_self m ms))
    have hM : ABH.orderedMoves ver b (blockingMoves b p) p ≠ [] :=
      orderedMoves_ne_nil ver b p _ hblne
    rw [ABH.getBestMove]
    simp only [if_neg hne, hnw]
    rw [if_neg (by omega : ¬(blockingMoves b p).length = 1),
      if_pos (by omega : (blockingMoves b p).length > 1)]
    set M := ABH.orderedMoves ver b (blockingMoves b p) p with hMdef
    set M2 := if M.length > 25 then M.take 25 else M with hM2def
    have hM2sub : ∀ x, x ∈ M2 → x ∈ M := by
      intro x hx
      rw [hM2def] at hx
      split_ifs at hx with h
      · exact List.mem_of_mem_take hx
      · exact hx
    have hM2ne : M2 ≠ [] := by
      rw [hM2def]
      split_ifs with h
      · intro hcon
        have hl := congrArg List.length hcon
        rw [List.length_take, List.length_nil] at hl
        omega
      · exact hM
    obtain ⟨m0, rest, hm2⟩ := List.exists_cons_of_ne_nil hM2ne
    rw [hm2]
    refine ⟨_, rfl, ?_⟩
    refine orderedMoves_subset ver b p (blockingMoves b p) _ ?_
    rw [← hMdef]
    refine hM2sub _ ?_
    rw [hm2]
    exact abhTopLoop_mem_of_mem _ _ _ _ _ _ (List.mem_cons_self m0 rest)

set_option maxRecDepth 20000 in
set_option maxHeartbeats 4000000 in
/-- Witness for C2 as amended: the unique-threat board is blocked at
(3,1,1) by both engines; on the double-threat board
`AlphaBetaHeuristicAI` still plays a blocking move. -/
theorem C2_blocking_witness :
    (ABH.getBestMove 2 3 oneThreatBoard 1 = some (3,1,1) ∧
     MinimaxAI.getBestMove oneThreatBoard 1 = some (3,1,1)) ∧
    (∃ m, ABH.getBestMove 2 3 twoThreatsBoard 1 = some m ∧
      m ∈ blockingMoves twoThreatsBoard 1) :=
  ⟨(C2_blocking_amended 2 3 oneThreatBoard 1 (by decide)).1 (3,1,1) (by decide),
   (C2_blocking_amended 2 3 twoThreatsBoard 1 (by decide)).2.1 (by decide)⟩

/-! ## Claim C4: terminal values of the recursions -/

theorem MMH.mmh_zero (ver : Nat) (pl : Int) (b : Board) (isMax : Bool) (n0 : Nat) :
    MMH.minimax ver pl 0 b isMax n0 =
      MMH.minimaxBody ver pl 0 b isMax n0 fun _ _ nn => (0, nn) := rfl

theorem MMH.mmh_succ (ver : Nat) (pl : Int) (d1 : Nat) (b : Board)
    (isMax : Bool) (n0 : Nat) :
    MMH.minimax ver pl (d1 + 1) b isMax n0 =
      MMH.minimaxBody ver pl (d1 + 1) b isMax n0 (MMH.minimax ver pl d1) := rfl

/-- `lineWinner` only ever names a real player. -/
theorem lineWinner_values (b : Board) (l : List Coord) (w : Int)
    (h : lineWinner b l = some w) : w = 1 ∨ w = -1 := by
  simp only [lineWinner] at h
  split_ifs at h with h1 h2
  · exact Or.inl (Option.some.injEq _ _ ▸ h.symm)
  · exact Or.inr (Option.some.injEq _ _ ▸ h.symm)

/-- A draw verdict is only reached on a full board. -/
theorem checkWinner_draw_full (b : Board) :
    ∀ ls, checkWinnerAux b ls = some 0 → isFull b = true := by
  intro ls
  induction ls with
  | nil =>
    intro h
    rw [checkWinnerAux] at h
    by_cases hf : isFull b
    · exact hf
    · rw [if_neg hf] at h; cases h
  | cons l ls ih =>
    intro h
    rw [checkWinnerAux] at h
    cases hl : lineWinner b l with
    | some w =>
      rw [hl] at h
      cases h
      rcases lineWinner_values b l 0 hl with h0 | h0 <;> cases h0
    | none => rw [hl] at h; exact ih h

/-- A None verdict is only reached on a non-full board. -/
theorem checkWinner_none_not_full (b : Board) :
    ∀ ls, checkWinnerAux b ls = none → isFull b = false := by
  intro ls
  induction ls with
  | nil =>
    intro h
    rw [checkWinnerAux] at h
    by_cases hf : isFull b
    · rw [if_pos hf] at h; cases h
    · simp [hf]
  | cons l ls ih =>
    intro h
    rw [checkWinnerAux] at h
    cases hl : lineWinner b l with
    | some w => rw [hl] at h; cases h
    | none => rw [hl] at h; exact ih h

/-- C4, counterexample to the claim as stated: on a board the mover has
won, `MinimaxAI._minimax` returns 10000 + d, not 1000 + d; and on a
drawn full board `AlphaBetaAI._alphabeta` returns -1000 - d, not 0,
because the draw verdict 0 falls into its `winner is not None` branch. -/
theorem C4_counterexample :
    checkWinner wonBoard = some 1 ∧
    (MinimaxAI.minimax 1 0 wonBoard true []).1 ≠ 1000 + (0 : Int) ∧
    checkWinner drawnBoard = some 0 ∧
    AlphaBetaAI.alphabeta 1 1 drawnBoard (-sysMaxsize) sysMaxsize true ≠ 0 :=
  ⟨by decide, by decide, by decide, by decide⟩

/-- C4 as amended, per-variant terminal values.
`AlphaBetaHeuristicAI._alphabeta` (on a cache miss) matches the claim
exactly: mover win 1000 + d, opponent win -1000 - d, drawn full board
0, and the evaluator score at depth 0.  `AlphaBetaAI._alphabeta` and
`MinimaxHeuristicAI._minimax` (within the node budget) score a drawn
full board -1000 - d instead of 0.  `MinimaxAI._minimax` (on a cache
miss) uses 10000-based win constants and returns 0 at depth 0. -/
theorem C4_terminal_values_amended :
    (∀ (ver : Nat) (pl : Int) (d : Nat) (b : Board) (a beta : Int) (im : Bool)
        (c : Cache), cacheLookup c (b, d, im) = none → pl = 1 ∨ pl = -1 →
      ((checkWinner b = some pl →
          (ABH.alphabeta ver pl d b a beta im c).1 = 1000 + (d : Int)) ∧
       (checkWinner b = some (-pl) →
          (ABH.alphabeta ver pl d b a beta im c).1 = -1000 - (d : Int)) ∧
       (checkWinner b = some 0 →
          (ABH.alphabeta ver pl d b a beta im c).1 = 0) ∧
       (checkWinner b = none → d = 0 →
          (ABH.alphabeta ver pl d b a beta im c).1 = evaluate ver b pl))) ∧
    (∀ (pl : Int) (d : Nat) (b : Board) (a beta : Int) (im : Bool),
        pl = 1 ∨ pl = -1 →
      ((checkWinner b = some pl →
          AlphaBetaAI.alphabeta pl d b a beta im = 1000 + (d : Int)) ∧
       (checkWinner b = some (-pl) →
          AlphaBetaAI.alphabeta pl d b a beta im = -1000 - (d : Int)) ∧
       (checkWinner b = some 0 →
          AlphaBetaAI.alphabeta pl d b a beta im = -1000 - (d : Int)) ∧
       (checkWinner b = none → d = 0 →
          AlphaBetaAI.alphabeta pl d b a beta im = 0))) ∧
    (∀ (pl : Int) (d : Nat) (b : Board) (im : Bool) (c : Cache),
        cacheLookup c (b, d, im) = none → pl = 1 ∨ pl = -1 →
      ((checkWinner b = some pl →
          (MinimaxAI.minimax pl d b im c).1 = 10000 + (d : Int)) ∧
       (checkWinner b = some (-pl) →
          (MinimaxAI.minimax pl d b im c).1 = -10000 - (d : Int)) ∧
       (checkWinner b = some 0 → (MinimaxAI.minimax pl d b im c).1 = 0) ∧
       (checkWinner b = none → d = 0 → (MinimaxAI.minimax pl d b im c).1 = 0))) ∧
    (∀ (ver : Nat) (pl : Int) (d : Nat) (b : Board) (im : Bool) (n : Nat),
        n + 1 ≤ MMH.maxNodes → pl = 1 ∨ pl = -1 →
      ((checkWinner b = some pl →
          (MMH.minimax ver pl d b im n).1 = 1000 + (d : Int)) ∧
       (checkWinner b = some 0 →
          (MMH.minimax ver pl d b im n).1 = -1000 - (d : Int)))) := by
  have hne_pl : ∀ pl : Int, pl = 1 ∨ pl = -1 → ¬(some (0 : Int) = some pl) := by
    rintro pl (rfl | rfl) <;> decide
  have hne_npl : ∀ pl : Int, pl = 1 ∨ pl = -1 → ¬(some (0 : Int) = some (-pl)) := by
    rintro pl (rfl | rfl) <;> decide
  have hne_opp : ∀ pl : Int, pl = 1 ∨ pl = -1 → ¬(some (-pl) = some pl) := by
    rintro pl (rfl | rfl) <;> decide
  refine ⟨?_, ?_, ?_, ?_⟩
  · -- AlphaBetaHeuristicAI._alphabeta
    intro ver pl d b a beta im c hc hp
    have hbody : ∀ child,
        (checkWinner b = some pl →
          (ABH.alphabetaBody ver pl d b a beta im c child).1 = 1000 + (d : Int)) ∧
        (checkWinner b = some (-pl) →
          (ABH.alphabetaBody ver pl d b a beta im c child).1 = -1000 - (d : Int)) ∧
        (checkWinner b = some 0 →
          (ABH.alphabetaBody ver pl d b a beta im c child).1 = 0) ∧
        (checkWinner b = none → d = 0 →
          (ABH.alphabetaBody ver pl d b a beta im c child).1 = evaluate ver b pl) := by
      intro child
      simp only [ABH.alphabetaBody, hc]
      refine ⟨?_, ?_, ?_, ?_⟩
      · intro hw; rw [hw, if_pos rfl]
      · intro hw
        rw [hw, if_neg (hne_opp pl hp), if_pos rfl]
      · intro hw
        rw [hw, if_neg (hne_pl pl hp), if_neg (hne_npl pl hp),
          if_pos (checkWinner_draw_full b winningLines hw)]
      · intro hw hd
        rw [hw, if_neg (by simp), if_neg (by simp),
          if_neg (by simp [checkWinner_none_not_full b winningLines hw]), if_pos hd]
    cases d with
    | zero => rw [ABH.abh_zero]; exact hbody _
    | succ d1 => rw [ABH.abh_succ]; exact hbody _
  · -- AlphaBetaAI._alphabeta
    intro pl d b a beta im hp
    have hbody : ∀ child,
        (checkWinner b = some pl →
          AlphaBetaAI.alphabetaBody pl d b a beta im child = 1000 + (d : Int)) ∧
        (checkWinner b = some (-pl) →
          AlphaBetaAI.alphabetaBody pl d b a beta im child = -1000 - (d : Int)) ∧
        (checkWinner b = some 0 →
          AlphaBetaAI.alphabetaBody pl d b a beta im child = -1000 - (d : Int)) ∧
        (checkWinner b = none → d = 0 →
          AlphaBetaAI.alphabetaBody pl d b a beta im child = 0) := by
      intro child
      simp only [AlphaBetaAI.alphabetaBody]
      refine ⟨?_, ?_, ?_, ?_⟩
      · intro hw; rw [hw, if_pos rfl]
      · intro hw
        rw [hw, if_neg (hne_opp pl hp), if_pos (by simp)]
      · intro hw
        rw [hw, if_neg (hne_pl pl hp), if_pos (by simp)]
      · intro hw hd
        rw [hw, if_neg (by simp), if_neg (by simp),
          if_neg (by simp [checkWinner_none_not_full b winningLines hw]), if_pos hd]
    cases d with
    | zero => rw [AlphaBetaAI.alphabeta_zero]; exact hbody _
    | succ d1 => rw [AlphaBetaAI.alphabeta_succ]; exact hbody _
  · -- MinimaxAI._minimax
    intro pl d b im c hc hp
    have hbody : ∀ child,
        (checkWinner b = some pl →
          (MinimaxAI.minimaxBody pl d b im c child).1 = 10000 + (d : Int)) ∧
        (checkWinner b = some (-pl) →
          (MinimaxAI.minimaxBody pl d b im c child).1 = -10000 - (d : Int)) ∧
        (checkWinner b = some 0 → (MinimaxAI.minimaxBody pl d b im c child).1 = 0) ∧
        (checkWinner b = none → d = 0 →
          (MinimaxAI.minimaxBody pl d b im c child).1 = 0) := by
      intro child
      simp only [MinimaxAI.minimaxBody, hc]
      refine ⟨?_, ?_, ?_, ?_⟩
      · intro hw; rw [hw, if_pos rfl]
      · intro hw
        rw [hw, if_neg (hne_opp pl hp), if_pos rfl]
      · intro hw
        rw [hw, if_neg (hne_pl pl hp), if_neg (hne_npl pl hp),
          if_pos (checkWinner_draw_full b winningLines hw)]
      · intro hw hd
        rw [hw, if_neg (by simp), if_neg (by simp),
          if_neg (by simp [checkWinner_none_not_full b winningLines hw]), if_pos hd]
    cases d with
    | zero => rw [MinimaxAI.minimax_zero]; exact hbody _
    | succ d1 => rw [MinimaxAI.minimax_succ]; exact hbody _
  · -- MinimaxHeuristicAI._minimax
    intro ver pl d b im n hn hp
    have hbody : ∀ child,
        (checkWinner b = some pl →
          (MMH.minimaxBody ver pl d b im n child).1 = 1000 + (d : Int)) ∧
        (checkWinner b = some 0 →
          (MMH.minimaxBody ver pl d b im n child).1 = -1000 - (d : Int)) := by
      intro child
      simp only [MMH.minimaxBody]
      rw [if_neg (by omega : ¬n + 1 > MMH.maxNodes)]
      refine ⟨?_, ?_⟩
      · intro hw; rw [hw, if_pos rfl]
      · intro hw
        rw [hw, if_neg (hne_pl pl hp), if_pos (by simp)]
    cases d with
    | zero => rw [MMH.mmh_zero]; exact hbody _
    | succ d1 => rw [MMH.mmh_succ]; exact hbody _

/-- Witness for C4 as amended, at concrete terminal positions. -/
theorem C4_terminal_values_witness :
    (ABH.alphabeta 2 1 3 wonBoard (-sysMaxsize) sysMaxsize true []).1 = 1000 + 3 ∧
    AlphaBetaAI.alphabeta 1 2 drawnBoard (-sysMaxsize) sysMaxsize true = -1000 - 2 ∧
    (MinimaxAI.minimax 1 4 wonBoard true []).1 = 10000 + 4 ∧
    (MMH.minimax 1 1 5 drawnBoard true 0).1 = -1000 - 5 :=
  ⟨(C4_terminal_values_amended.1 2 1 3 wonBoard (-sysMaxsize) sysMaxsize true []
      rfl (Or.inl rfl)).1 (by decide),
   ((C4_terminal_values_amended.2.1 1 2 drawnBoard (-sysMaxsize) sysMaxsize true
      (Or.inl rfl)).2.2.1 (by decide)),
   ((C4_terminal_values_amended.2.2.1 1 4 wonBoard true [] rfl (Or.inl rfl)).1
      (by decide)),
   ((C4_terminal_values_amended.2.2.2 1 1 5 drawnBoard true 0 (by decide)
      (Or.inl rfl)).2 (by decide))⟩

/-! ## Claim C7: transposition-cache bounds -/

theorem cacheStore_length_le (cap : Nat) (c : Cache) (k : CacheKey) (v : Int)
    (h : c.length ≤ cap) : (cacheStore cap c k v).length ≤ cap := by
  unfold cacheStore
  split_ifs with h1 h2
  · rw [List.length_map]; exact h
  · rw [List.length_cons]; omega
  · exact h

theorem cacheStore_at_capacity (cap : Nat) (c : Cache) (k : CacheKey) (v : Int)
    (h : c.length = cap) : cacheStore cap c k v = c := by
  unfold cacheStore
  rw [if_neg (by omega)]

theorem mmMaxLoop_cache (ev : Coord → Cache → Int × Cache) (P : Cache → Prop)
    (hev : ∀ m cc, P cc → P (ev m cc).2) :
    ∀ (ms : List Coord) (best : Int) (c : Cache), P c → P (mmMaxLoop ev ms best c).2 := by
  intro ms
  induction ms with
  | nil => intro best c h; exact h
  | cons m ms ih =>
    intro best c h
    rw [mmMaxLoop]
    split_ifs with hb
    · exact hev m c h
    · exact ih _ _ (hev m c h)

theorem mmMinLoop_cache (ev : Coord → Cache → Int × Cache) (P : Cache → Prop)
    (hev : ∀ m cc, P cc → P (ev m cc).2) :
    ∀ (ms : List Coord) (best : Int) (c : Cache), P c → P (mmMinLoop ev ms best c).2 := by
  intro ms
  induction ms with
  | nil => intro best c h; exact h
  | cons m ms ih =>
    intro best c h
    rw [mmMinLoop]
    split_ifs with hb
    · exact hev m c h
    · exact ih _ _ (hev m c h)

theorem abhMaxLoop_cache (ev : Coord → Int → Cache → Int × Cache) (P : Cache → Prop)
    (hev : ∀ m aa cc, P cc → P (ev m aa cc).2) :
    ∀ (ms : List Coord) (a beta best : Int) (c : Cache),
      P c → P (abhMaxLoop ev ms a beta best c).2 := by
  intro ms
  induction ms with
  | nil => intro a beta best c h; exact h
  | cons m ms ih =>
    intro a beta best c h
    rw [abhMaxLoop]
    split_ifs with hb
    · exact hev m a c h
    · exact ih _ _ _ _ (hev m a c h)

theorem abhMinLoop_cache (ev : Coord → Int → Cache → Int × Cache) (P : Cache → Prop)
    (hev : ∀ m bb cc, P cc → P (ev m bb cc).2) :
    ∀ (ms : List Coord) (a beta best : Int) (c : Cache),
      P c → P (abhMinLoop ev ms a beta best c).2 := by
  intro ms
  induction ms with
  | nil => intro a beta best c h; exact h
  | cons m ms ih =>
    intro a beta best c h
    rw [abhMinLoop]
    split_ifs with hb
    · exact hev m beta c h
    · exact ih _ _ _ _ (hev m beta c h)

/-- Cache-size bound for one `MinimaxAI._minimax` body step, given the
bound for the one-level-deeper search. -/
theorem MinimaxAI.minimaxBody_cache_le (pl : Int) (d : Nat) (b : Board) (im : Bool)
    (c : Cache) (child : Board → Bool → Cache → Int × Cache)
    (hchild : ∀ b2 im2 cc, cc.length ≤ MinimaxAI.maxCacheSize →
      (child b2 im2 cc).2.length ≤ MinimaxAI.maxCacheSize)
    (h : c.length ≤ MinimaxAI.maxCacheSize) :
    (MinimaxAI.minimaxBody pl d b im c child).2.length ≤ MinimaxAI.maxCacheSize := by
  unfold MinimaxAI.minimaxBody
  cases hl : cacheLookup c (b, d, im) with
  | some v => exact h
  | none =>
    apply cacheStore_length_le
    split_ifs with h1 h2 h3 h4 h5
    · exact h
    · exact h
    · exact h
    · exact h
    · exact mmMaxLoop_cache _ (fun cc => cc.length ≤ MinimaxAI.maxCacheSize)
        (fun m cc hcc => hchild _ _ cc hcc) _ _ _ h
    · exact mmMinLoop_cache _ (fun cc => cc.length ≤ MinimaxAI.maxCacheSize)
        (fun m cc hcc => hchild _ _ cc hcc) _ _ _ h

/-- Storing on top of a frozen at-capacity cache leaves it unchanged. -/
theorem store_pair_frozen (cap : Nat) (k : CacheKey) (p : Int × Cache) (c : Cache)
    (hp : p.2 = c) (h : c.length = cap) :
    (p.1, cacheStore cap p.2 k p.1).2 = c := by
  show cacheStore cap p.2 k p.1 = c
  rw [hp]
  exact cacheStore_at_capacity cap c k p.1 h

/-- Frozen cache for one `MinimaxAI._minimax` body step at capacity. -/
theorem MinimaxAI.minimaxBody_cache_frozen (pl : Int) (d : Nat) (b : Board) (im : Bool)
    (c : Cache) (child : Board → Bool → Cache → Int × Cache)
    (hchild : ∀ b2 im2 cc, cc.length = MinimaxAI.maxCacheSize →
      (child b2 im2 cc).2 = cc)
    (h : c.length = MinimaxAI.maxCacheSize) :
    (MinimaxAI.minimaxBody pl d b im c child).2 = c := by
  unfold MinimaxAI.minimaxBody
  cases hl : cacheLookup c (b, d, im) with
  | some v => rfl
  | none =>
    apply store_pair_frozen _ _ _ _ ?_ h
    split_ifs with h1 h2 h3 h4 h5
    · rfl
    · rfl
    · rfl
    · rfl
    · exact mmMaxLoop_cache _ (fun cc => cc = c)
        (fun m cc hcc => by rw [hcc]; exact hchild _ _ c h) _ _ _ rfl
    · exact mmMinLoop_cache _ (fun cc => cc = c)
        (fun m cc hcc => by rw [hcc]; exact hchild _ _ c h) _ _ _ rfl

/-- Cache-size bound for `MinimaxAI._minimax` at every depth. -/
theorem MinimaxAI.minimax_cache_le (pl : Int) :
    ∀ (d : Nat) (b : Board) (im : Bool) (c : Cache),
      c.length ≤ MinimaxAI.maxCacheSize →
      (MinimaxAI.minimax pl d b im c).2.length ≤ MinimaxAI.maxCacheSize := by
  intro d
  induction d with
  | zero =>
    intro b im c h
    rw [MinimaxAI.minimax_zero]
    exact MinimaxAI.minimaxBody_cache_le pl 0 b im c _ (fun _ _ cc hcc => hcc) h
  | succ d1 ih =>
    intro b im c h
    rw [MinimaxAI.minimax_succ]
    exact MinimaxAI.minimaxBody_cache_le pl (d1 + 1) b im c _
      (fun b2 im2 cc hcc => ih b2 im2 cc hcc) h

/-- `MinimaxAI._minimax` never touches a cache already at capacity. -/
theorem MinimaxAI.minimax_cache_frozen (pl : Int) :
    ∀ (d : Nat) (b : Board) (im : Bool) (c : Cache),
      c.length = MinimaxAI.maxCacheSize →
      (MinimaxAI.minimax pl d b im c).2 = c := by
  intro d
  induction d with
  | zero =>
    intro b im c h
    rw [MinimaxAI.minimax_zero]
    exact MinimaxAI.minimaxBody_cache_frozen pl 0 b im c _ (fun _ _ cc _ => rfl) h
  | succ d1 ih =>
    intro b im c h
    rw [MinimaxAI.minimax_succ]
    exact MinimaxAI.minimaxBody_cache_frozen pl (d1 + 1) b im c _
      (fun b2 im2 cc hcc => ih b2 im2 cc hcc) h

/-- Cache-size bound for one `AlphaBetaHeuristicAI._alphabeta` body
step, given the bound for the one-level-deeper search. -/
theorem ABH.alphabetaBody_cache_le (ver : Nat) (pl : Int) (d : Nat) (b : Board)
    (a beta : Int) (im : Bool) (c : Cache)
    (child : Board → Int → Int → Bool → Cache → Int × Cache)
    (hchild : ∀ b2 a2 b3 im2 cc, cc.length ≤ ABH.maxCacheSize →
      (child b2 a2 b3 im2 cc).2.length ≤ ABH.maxCacheSize)
    (h : c.length ≤ ABH.maxCacheSize) :
    (ABH.alphabetaBody ver pl d b a beta im c child).2.length ≤ ABH.maxCacheSize := by
  unfold ABH.alphabetaBody
  cases hl : cacheLookup c (b, d, im) with
  | some v => exact h
  | none =>
    apply cacheStore_length_le
    split_ifs with h1 h2 h3 h4 h5
    · exact h
    · exact h
    · exact h
    · exact h
    · exact abhMaxLoop_cache _ (fun cc => cc.length ≤ ABH.maxCacheSize)
        (fun m aa cc hcc => hchild _ _ _ _ cc hcc) _ _ _ _ _ h
    · exact abhMinLoop_cache _ (fun cc => cc.length ≤ ABH.maxCacheSize)
        (fun m bb cc hcc => hchild _ _ _ _ cc hcc) _ _ _ _ _ h

/-- Frozen cache for one `AlphaBetaHeuristicAI._alphabeta` body step at
capacity. -/
theorem ABH.alphabetaBody_cache_frozen (ver : Nat) (pl : Int) (d : Nat) (b : Board)
    (a beta : Int) (im : Bool) (c : Cache)
    (child : Board → Int → Int → Bool → Cache → Int × Cache)
    (hchild : ∀ b2 a2 b3 im2 cc, cc.length = ABH.maxCacheSize →
      (child b2 a2 b3 im2 cc).2 = cc)
    (h : c.length = ABH.maxCacheSize) :
    (ABH.alphabetaBody ver pl d b a beta im c child).2 = c := by
  unfold ABH.alphabetaBody
  cases hl : cacheLookup c (b, d, im) with
  | some v => rfl
  | none =>
    apply store_pair_frozen _ _ _ _ ?_ h
    split_ifs with h1 h2 h3 h4 h5
    · rfl
    · rfl
    · rfl
    · rfl
    · exact abhMaxLoop_cache _ (fun cc => cc = c)
        (fun m aa cc hcc => by rw [hcc]; exact hchild _ _ _ _ c h) _ _ _ _ _ rfl
    · exact abhMinLoop_cache _ (fun cc => cc = c)
        (fun m bb cc hcc => by rw [hcc]; exact hchild _ _ _ _ c h) _ _ _ _ _ rfl

/-- Cache-size bound for `AlphaBetaHeuristicAI._alphabeta` at every depth. -/
theorem ABH.alphabeta_cache_le (ver : Nat) (pl : Int) :
    ∀ (d : Nat) (b : Board) (a beta : Int) (im : Bool) (c : Cache),
      c.length ≤ ABH.maxCacheSize →
      (ABH.alphabeta ver pl d b a beta im c).2.length ≤ ABH.maxCacheSize := by
  intro d
  induction d with
  | zero =>
    intro b a beta im c h
    rw [ABH.abh_zero]
    exact ABH.alphabetaBody_cache_le ver pl 0 b a beta im c _
      (fun _ _ _ _ cc hcc => hcc) h
  | succ d1 ih =>
    intro b a beta im c h
    rw [ABH.abh_succ]
    exact ABH.alphabetaBody_cache_le ver pl (d1 + 1) b a beta im c _
      (fun b2 a2 b3 im2 cc hcc => ih b2 a2 b3 im2 cc hcc) h

/-- `AlphaBetaHeuristicAI._alphabeta` never touches a cache already at
capacity. -/
theorem ABH.alphabeta_cache_frozen (ver : Nat) (pl : Int) :
    ∀ (d : Nat) (b : Board) (a beta : Int) (im : Bool) (c : Cache),
      c.length = ABH.maxCacheSize →
      (ABH.alphabeta ver pl d b a beta im c).2 = c := by
  intro d
  induction d with
  | zero =>
    intro b a beta im c h
    rw [ABH.abh_zero]
    exact ABH.alphabetaBody_cache_frozen ver pl 0 b a beta im c _
      (fun _ _ _ _ cc _ => rfl) h
  | succ d1 ih =>
    intro b a beta im c h
    rw [ABH.abh_succ]
    exact ABH.alphabetaBody_cache_frozen ver pl (d1 + 1) b a beta im c _
      (fun b2 a2 b3 im2 cc hcc => ih b2 a2 b3 im2 cc hcc) h

/-- C7: during and after any single `get_best_move` call the
transposition cache never exceeds its configured capacity, and once it
is at capacity no entry is inserted or evicted for the remainder of the
call.  Both `get_best_move` variants clear the cache at the start of
the top-level call (`transposition_table.clear()`, modelled by
threading the search loops from the empty cache), so every cache state
arising in a call is reached from `[]` through `_minimax` /
`_alphabeta` steps, each of which preserves the bound below. -/
theorem C7_cache_capacity :
    (∀ (pl : Int) (d : Nat) (b : Board) (im : Bool) (c : Cache),
      c.length ≤ MinimaxAI.maxCacheSize →
      (MinimaxAI.minimax pl d b im c).2.length ≤ MinimaxAI.maxCacheSize) ∧
    (∀ (pl : Int) (d : Nat) (b : Board) (im : Bool) (c : Cache),
      c.length = MinimaxAI.maxCacheSize →
      (MinimaxAI.minimax pl d b im c).2 = c) ∧
    (∀ (ver : Nat) (pl : Int) (d : Nat) (b : Board) (a beta : Int) (im : Bool)
        (c : Cache),
      c.length ≤ ABH.maxCacheSize →
      (ABH.alphabeta ver pl d b a beta im c).2.length ≤ ABH.maxCacheSize) ∧
    (∀ (ver : Nat) (pl : Int) (d : Nat) (b : Board) (a beta : Int) (im : Bool)
        (c : Cache),
      c.length = ABH.maxCacheSize →
      (ABH.alphabeta ver pl d b a beta im c).2 = c) :=
  ⟨fun pl d b im c h => MinimaxAI.minimax_cache_le pl d b im c h,
   fun pl d b im c h => MinimaxAI.minimax_cache_frozen pl d b im c h,
   fun ver pl d b a beta im c h => ABH.alphabeta_cache_le ver pl d b a beta im c h,
   fun ver pl d b a beta im c h => ABH.alphabeta_cache_frozen ver pl d b a beta im c h⟩

/-- Witness for C7 at a concrete search (depth 2 from the near-win
board, empty cache). -/
theorem C7_cache_capacity_witness :
    (MinimaxAI.minimax 1 2 nearWinBoard true []).2.length ≤ MinimaxAI.maxCacheSize ∧
    (ABH.alphabeta 2 1 2 nearWinBoard (-sysMaxsize) sysMaxsize true []).2.length ≤
      ABH.maxCacheSize :=
  ⟨C7_cache_capacity.1 1 2 nearWinBoard true [] (by decide),
   C7_cache_capacity.2.2.1 2 1 2 nearWinBoard (-sysMaxsize) sysMaxsize true [] (by decide)⟩

/-! ## Claim C3: pruning neutrality of the alpha-beta recursion

The Knuth–Moore fail-soft characterisation: `alphabeta` at window
`(a, beta)` returns a value `r` that fails low (an upper bound on the
true minimax value), is exact, or fails high (a lower bound). -/

/-- Fail-soft alpha-beta window relation between a returned score `r`
and the true (pruning-free) score `M`. -/
def KM (r M a beta : Int) : Prop :=
  (r ≤ a ∧ M ≤ r) ∨ (a < r ∧ r < beta ∧ r = M) ∨ (beta ≤ r ∧ r ≤ M)

theorem KM_of_eq (r M a beta : Int) (h : r = M) : KM r M a beta := by
  subst h
  rcases le_or_lt r a with h1 | h1
  · exact Or.inl ⟨h1, le_refl r⟩
  · rcases lt_or_le r beta with h2 | h2
    · exact Or.inr (Or.inl ⟨h1, h2, rfl⟩)
    · exact Or.inr (Or.inr ⟨h2, le_refl r⟩)

theorem foldl_max_init {α : Type} (f : α → Int) :
    ∀ (l : List α) (x y : Int),
      l.foldl (fun acc m => max acc (f m)) (max x y) =
        max x (l.foldl (fun acc m => max acc (f m)) y) := by
  intro l
  induction l with
  | nil => intro x y; rfl
  | cons m ms ih =>
    intro x y
    rw [List.foldl_cons, List.foldl_cons, max_assoc, ih]

theorem foldl_min_init {α : Type} (f : α → Int) :
    ∀ (l : List α) (x y : Int),
      l.foldl (fun acc m => min acc (f m)) (min x y) =
        min x (l.foldl (fun acc m => min acc (f m)) y) := by
  intro l
  induction l with
  | nil => intro x y; rfl
  | cons m ms ih =>
    intro x y
    rw [List.foldl_cons, List.foldl_cons, min_assoc, ih]

theorem le_foldl_max {α : Type} (f : α → Int) :
    ∀ (l : List α) (x : Int), x ≤ l.foldl (fun acc m => max acc (f m)) x := by
  intro l
  induction l with
  | nil => intro x; exact le_refl x
  | cons m ms ih =>
    intro x
    rw [List.foldl_cons]
    exact le_trans (le_max_left x (f m)) (ih (max x (f m)))

theorem foldl_min_le {α : Type} (f : α → Int) :
    ∀ (l : List α) (x : Int), l.foldl (fun acc m => min acc (f m)) x ≤ x := by
  intro l
  induction l with
  | nil => intro x; exact le_refl x
  | cons m ms ih =>
    intro x
    rw [List.foldl_cons]
    exact le_trans (ih (min x (f m))) (min_le_left x (f m))

theorem foldl_max_le {α : Type} (f : α → Int) :
    ∀ (l : List α) (x B : Int), x ≤ B → (∀ m ∈ l, f m ≤ B) →
      l.foldl (fun acc m => max acc (f m)) x ≤ B := by
  intro l
  induction l with
  | nil => intro x B hx _; exact hx
  | cons m ms ih =>
    intro x B hx hl
    rw [List.foldl_cons]
    exact ih _ B (max_le hx (hl m (List.mem_cons_self m ms)))
      fun m2 hm2 => hl m2 (List.mem_cons_of_mem m hm2)

theorem le_foldl_min {α : Type} (f : α → Int) :
    ∀ (l : List α) (x B : Int), B ≤ x → (∀ m ∈ l, B ≤ f m) →
      B ≤ l.foldl (fun acc m => min acc (f m)) x := by
  intro l
  induction l with
  | nil => intro x B hx _; exact hx
  | cons m ms ih =>
    intro x B hx hl
    rw [List.foldl_cons]
    exact ih _ B (le_min hx (hl m (List.mem_cons_self m ms)))
      fun m2 hm2 => hl m2 (List.mem_cons_of_mem m hm2)

theorem foldl_max_mem_le {α : Type} (f : α → Int) :
    ∀ (l : List α) (x : Int) (m : α), m ∈ l →
      f m ≤ l.foldl (fun acc m2 => max acc (f m2)) x := by
  intro l
  induction l with
  | nil => intro x m hm; cases hm
  | cons m2 ms ih =>
    intro x m hm
    rw [List.foldl_cons]
    rcases List.mem_cons.mp hm with rfl | hm2
    · exact le_trans (le_max_right x (f m)) (le_foldl_max f ms (max x (f m)))
    · exact ih _ m hm2

theorem foldl_min_mem_le {α : Type} (f : α → Int) :
    ∀ (l : List α) (x : Int) (m : α), m ∈ l →
      l.foldl (fun acc m2 => min acc (f m2)) x ≤ f m := by
  intro l
  induction l with
  | nil => intro x m hm; cases hm
  | cons m2 ms ih =>
    intro x m hm
    rw [List.foldl_cons]
    rcases List.mem_cons.mp hm with rfl | hm2
    · exact le_trans (foldl_min_le f ms (min x (f m))) (min_le_right x (f m))
    · exact ih _ m hm2

theorem abMaxLoop_ge_best (ev : Coord → Int → Int) :
    ∀ (ms : List Coord) (a beta best : Int),
      best ≤ abMaxLoop ev ms a beta best := by
  intro ms
  induction ms with
  | nil => intro a beta best; exact le_refl best
  | cons m ms ih =>
    intro a beta best
    rw [abMaxLoop]
    split_ifs with h
    · exact le_max_left best (ev m a)
    · exact le_trans (le_max_left best (ev m a)) (ih _ _ _)

theorem abMinLoop_le_best (ev : Coord → Int → Int) :
    ∀ (ms : List Coord) (a beta best : Int),
      abMinLoop ev ms a beta best ≤ best := by
  intro ms
  induction ms with
  | nil => intro a beta best; exact le_refl best
  | cons m ms ih =>
    intro a beta best
    rw [abMinLoop]
    split_ifs with h
    · exact min_le_left best (ev m beta)
    · exact le_trans (ih _ _ _) (min_le_left best (ev m beta))

/-- Knuth–Moore invariant of the maximizing alpha-beta loop: given that
every child evaluation satisfies the window relation against its true
value, the loop result satisfies it against the plain max-fold. -/
theorem abMaxLoop_KM (ev : Coord → Int → Int) (mv : Coord → Int) (beta : Int) :
    ∀ (ms : List Coord) (a best : Int), best ≤ a → a < beta →
      (∀ m ∈ ms, ∀ x, a ≤ x → x < beta → KM (ev m x) (mv m) x beta) →
      KM (abMaxLoop ev ms a beta best)
        (ms.foldl (fun acc m => max acc (mv m)) best) a beta := by
  intro ms
  induction ms with
  | nil =>
    intro a best hba hab _
    exact Or.inl ⟨hba, le_refl best⟩
  | cons m ms ih =>
    intro a best hba hab hev
    rw [abMaxLoop, List.foldl_cons]
    have hkm := hev m (List.mem_cons_self m ms) a (le_refl a) hab
    by_cases hcut : beta ≤ max a (ev m a)
    · rw [if_pos hcut]
      have hfold : mv m ≤ ms.foldl (fun acc x => max acc (mv x)) (max best (mv m)) :=
        le_trans (le_max_right best (mv m)) (le_foldl_max mv ms _)
      simp only [KM] at hkm ⊢
      omega
    · rw [if_neg hcut]
      push_neg at hcut
      have hih := ih (max a (ev m a)) (max best (ev m a))
        (max_le_max hba (le_refl _)) hcut
        (fun m2 hm2 x hx hxb => hev m2 (List.mem_cons_of_mem m hm2) x
          (le_trans (le_max_left a _) hx) hxb)
      have hM2 : ms.foldl (fun acc x => max acc (mv x)) (max best (ev m a)) =
          max (ev m a) (ms.foldl (fun acc x => max acc (mv x)) best) := by
        rw [max_comm best (ev m a), foldl_max_init]
      have hM : ms.foldl (fun acc x => max acc (mv x)) (max best (mv m)) =
          max (mv m) (ms.foldl (fun acc x => max acc (mv x)) best) := by
        rw [max_comm best (mv m), foldl_max_init]
      rw [hM2] at hih
      rw [hM]
      have hLgb := abMaxLoop_ge_best ev ms (max a (ev m a)) beta (max best (ev m a))
      simp only [KM] at hkm hih ⊢
      omega

/-- Knuth–Moore invariant of the minimizing alpha-beta loop. -/
theorem abMinLoop_KM (ev : Coord → Int → Int) (mv : Coord → Int) (a : Int) :
    ∀ (ms : List Coord) (beta best : Int), beta ≤ best → a < beta →
      (∀ m ∈ ms, ∀ y, y ≤ beta → a < y → KM (ev m y) (mv m) a y) →
      KM (abMinLoop ev ms a beta best)
        (ms.foldl (fun acc m => min acc (mv m)) best) a beta := by
  intro ms
  induction ms with
  | nil =>
    intro beta best hbb hab _
    exact Or.inr (Or.inr ⟨hbb, le_refl best⟩)
  | cons m ms ih =>
    intro beta best hbb hab hev
    rw [abMinLoop, List.foldl_cons]
    have hkm := hev m (List.mem_cons_self m ms) beta (le_refl beta) hab
    by_cases hcut : min beta (ev m beta) ≤ a
    · rw [if_pos hcut]
      have hfold : ms.foldl (fun acc x => min acc (mv x)) (min best (mv m)) ≤ mv m :=
        le_trans (foldl_min_le mv ms _) (min_le_right best (mv m))
      simp only [KM] at hkm ⊢
      omega
    · rw [if_neg hcut]
      push_neg at hcut
      have hih := ih (min beta (ev m beta)) (min best (ev m beta))
        (min_le_min hbb (le_refl _)) hcut
        (fun m2 hm2 y hy hay => hev m2 (List.mem_cons_of_mem m hm2) y
          (le_trans hy (min_le_left beta _)) hay)
      have hM2 : ms.foldl (fun acc x => min acc (mv x)) (min best (ev m beta)) =
          min (ev m beta) (ms.foldl (fun acc x => min acc (mv x)) best) := by
        rw [min_comm best (ev m beta), foldl_min_init]
      have hM : ms.foldl (fun acc x => min acc (mv x)) (min best (mv m)) =
          min (mv m) (ms.foldl (fun acc x => min acc (mv x)) best) := by
        rw [min_comm best (mv m), foldl_min_init]
      rw [hM2] at hih
      rw [hM]
      have hLlb := abMinLoop_le_best ev ms a (min beta (ev m beta)) (min best (ev m beta))
      simp only [KM] at hkm hih ⊢
      omega

/-- A non-full board has an available move. -/
theorem avail_ne_nil_of_not_full (b : Board) (h : isFull b = false) :
    availableMoves b ≠ [] := by
  simp only [isFull, decide_eq_false_iff_not] at h
  exact h

/-- The pruning-free reference value is bounded by ±(1000 + depth). -/
theorem minimaxNP_bound (pl : Int) :
    ∀ (d : Nat) (b : Board) (isMax : Bool),
      -(1000 + (d : Int)) ≤ minimaxNP pl d b isMax ∧
      minimaxNP pl d b isMax ≤ 1000 + (d : Int) := by
  intro d
  induction d with
  | zero =>
    intro b isMax
    rw [minimaxNP_zero]
    simp only [minimaxNPBody]
    split_ifs with hw1 hw2 hf
    · constructor <;> omega
    · constructor <;> omega
    · constructor <;> omega
    · constructor <;> omega
  | succ d1 ih =>
    intro b isMax
    rw [minimaxNP_succ]
    simp only [minimaxNPBody]
    have hsM : (0 : Int) < sysMaxsize := by norm_num [sysMaxsize]
    split_ifs with hw1 hw2 hf hd0
    · constructor <;> omega
    · constructor <;> omega
    · constructor <;> omega
    · constructor <;> omega
    · -- maximizing fold
      obtain ⟨m0, ms0, hm0⟩ := List.exists_cons_of_ne_nil
        (avail_ne_nil_of_not_full b (by simpa using hf))
      constructor
      · refine le_trans ?_ (foldl_max_mem_le
          (fun m => minimaxNP pl d1 (makeMove b m pl) false)
          (availableMoves b) (-sysMaxsize) m0
          (by rw [hm0]; exact List.mem_cons_self m0 ms0))
        exact le_trans (by omega) ((ih (makeMove b m0 pl) false).1)
      · refine foldl_max_le (fun m => minimaxNP pl d1 (makeMove b m pl) false)
          (availableMoves b) (-sysMaxsize) _ (by omega) ?_
        intro m _
        exact le_trans ((ih (makeMove b m pl) false).2) (by omega)
    · -- minimizing fold
      obtain ⟨m0, ms0, hm0⟩ := List.exists_cons_of_ne_nil
        (avail_ne_nil_of_not_full b (by simpa using hf))
      constructor
      · refine le_foldl_min (fun m => minimaxNP pl d1 (makeMove b m (-pl)) true)
          (availableMoves b) sysMaxsize _ (by omega) ?_
        intro m _
        exact le_trans (by omega) ((ih (makeMove b m (-pl)) true).1)
      · refine le_trans (foldl_min_mem_le
          (fun m => minimaxNP pl d1 (makeMove b m (-pl)) true)
          (availableMoves b) sysMaxsize m0
          (by rw [hm0]; exact List.mem_cons_self m0 ms0)) ?_
        exact le_trans ((ih (makeMove b m0 (-pl)) true).2) (by omega)

/-- The Knuth–Moore relation between `AlphaBetaAI._alphabeta` and the
pruning-free reference, at every window inside ±`sys.maxsize`. -/
theorem alphabeta_minimaxNP_KM (pl : Int) :
    ∀ (d : Nat) (b : Board) (isMax : Bool) (a beta : Int),
      -sysMaxsize ≤ a → a < beta → beta ≤ sysMaxsize →
      KM (AlphaBetaAI.alphabeta pl d b a beta isMax) (minimaxNP pl d b isMax)
        a beta := by
  intro d
  induction d with
  | zero =>
    intro b isMax a beta h1 h2 h3
    apply KM_of_eq
    rw [AlphaBetaAI.alphabeta_zero, minimaxNP_zero]
    simp only [AlphaBetaAI.alphabetaBody, minimaxNPBody]
    split_ifs with hw1 hw2 hf
    · rfl
    · rfl
    · rfl
    · rfl
  | succ d1 ih =>
    intro b isMax a beta h1 h2 h3
    rw [AlphaBetaAI.alphabeta_succ, minimaxNP_succ]
    simp only [AlphaBetaAI.alphabetaBody, minimaxNPBody]
    split_ifs with hw1 hw2 hf hd0
    · exact KM_of_eq _ _ _ _ rfl
    · exact KM_of_eq _ _ _ _ rfl
    · exact KM_of_eq _ _ _ _ rfl
    · exact KM_of_eq _ _ _ _ rfl
    · exact abMaxLoop_KM
        (fun m aa => AlphaBetaAI.alphabeta pl d1 (makeMove b m pl) aa beta false)
        (fun m => minimaxNP pl d1 (makeMove b m pl) false) beta
        (availableMoves b) a (-sysMaxsize) h1 h2
        (fun m _ x hx hxb => ih (makeMove b m pl) false x beta
          (le_trans h1 hx) hxb h3)
    · exact abMinLoop_KM
        (fun m bb => AlphaBetaAI.alphabeta pl d1 (makeMove b m (-pl)) a bb true)
        (fun m => minimaxNP pl d1 (makeMove b m (-pl)) true) a
        (availableMoves b) beta sysMaxsize h3 h2
        (fun m _ y hy hay => ih (makeMove b m (-pl)) true a y h1 hay
          (le_trans hy h3))

/-- C3, counterexample to the claim as stated: at a terminal position
the two cited recursions disagree — `AlphaBetaAI._alphabeta` scores a
mover win 1000 while `MinimaxAI._minimax` scores it 10000 (and their
draw handling differs too), so they do not return the same score. -/
theorem C3_counterexample :
    AlphaBetaAI.alphabeta 1 0 wonBoard (-sysMaxsize) sysMaxsize true ≠
      (MinimaxAI.minimax 1 0 wonBoard true []).1 := by decide

/-- C3 as amended: what does hold is pruning-neutrality — at the full
`(-sys.maxsize, sys.maxsize)` window `AlphaBetaAI._alphabeta` returns
exactly the value of the same recursion with the alpha-beta bounds and
cutoffs removed (`minimaxNP`): pruning changes the number of nodes
visited, not the returned score.  `MinimaxAI._minimax` is not that
reference: it uses different terminal constants and truncates move
lists, so the cross-variant equality the claim asserts fails. -/
theorem C3_pruning_equivalence (pl : Int) (d : Nat) (b : Board) (isMax : Bool)
    (hd : (d : Int) + 1000 < sysMaxsize) :
    AlphaBetaAI.alphabeta pl d b (-sysMaxsize) sysMaxsize isMax =
      minimaxNP pl d b isMax := by
  have hsM : (0 : Int) < sysMaxsize := by norm_num [sysMaxsize]
  have hb := minimaxNP_bound pl d b isMax
  have hkm := alphabeta_minimaxNP_KM pl d b isMax (-sysMaxsize) sysMaxsize
    (le_refl _) (by omega) (le_refl _)
  rcases hkm with ⟨hr1, hr2⟩ | ⟨_, _, h⟩ | ⟨hr1, hr2⟩
  · exfalso; omega
  · exact h
  · exfalso; omega

/-- Witness for C3 as amended at a concrete position and depth. -/
theorem C3_pruning_equivalence_witness :
    AlphaBetaAI.alphabeta 1 1 oneThreatBoard (-sysMaxsize) sysMaxsize true =
      minimaxNP 1 1 oneThreatBoard true :=
  C3_pruning_equivalence 1 1 oneThreatBoard true (by norm_num [sysMaxsize])

end Cubic
